import Mathlib

/-!
# habit-cli: the habits tab (internal/habits/emoji.go, internal/habits/view.go)

A shallow embedding of the emoji picker's filter and scroll functions and of the
habits tab state machine with its list renderer, followed by theorems about them.

Conventions of the embedding:
* Go `int` values are `Int`; `/` of Go is `goDiv` (truncation toward zero).
  No addition or subtraction of the embedded functions can leave the `int` range
  on values that are `int`s (see `ensureVisibleEmoji64_eq`).
* A Go run-time panic (index out of range) is the result `none`.
* Text that is drawn on the screen is kept as structured lines (`Line`), the
  styling library is not embedded.
-/

namespace Habits

/-! ## Imported declarations that are not part of the embedded files -/

/-- Quotient of two Go `int`s: truncated toward zero. -/
def goDiv (a b : Int) : Int := Int.tdiv a b

/-- Declarations used by emoji.go that live outside of it: the two tables of
package `model` (`CommonEmojis`, and the map `EmojiKeywords`, whose lookup gives
the empty string for a missing key) and the rune mapping behind `strings.ToLower`
of the Go library. They are parameters of the embedding. -/
structure External where
  CommonEmojis : List String
  EmojiKeywords : String → String
  lowerRune : Char → Char

/-- Go `strings.ToLower`: every rune is mapped to its lower case. -/
def ToLower (ext : External) (s : String) : String :=
  String.mk (s.data.map ext.lowerRune)

/-- Go `strings.Contains`: `substr` occurs in `s` as a contiguous block. On valid
UTF-8 an occurrence of bytes is an occurrence of runes, so runes are compared. -/
def Contains (s substr : String) : Bool :=
  s.data.tails.any (fun t => substr.data.isPrefixOf t)

/-! ## emoji.go -/

/-- The fields of `FormModel` that emoji.go and view.go read or write. The struct
itself is declared in a file that is not embedded; `emojiSearch` is the value of
the search text input and `hidden` stands for all remaining fields. -/
structure FormModel (Hidden : Type) where
  emojiSearch : String
  emojiIndex : Int
  scrollOffset : Int
  selectedEmoji : String
  showCategoryModal : Bool
  showEmojiModal : Bool
  submitted : Bool
  cancelled : Bool
  width : Int
  height : Int
  hidden : Hidden
deriving DecidableEq, Repr

/-- Constant `emojisPerRow` of emoji.go. -/
def emojisPerRow : Int := 8

/-- Constant `maxVisibleRows` of emoji.go. -/
def maxVisibleRows : Int := 8

/-- The loop of `getFilteredEmojis`: `filtered = append(filtered, emoji)` for every
emoji whose lower-cased keywords contain `search`. -/
def filterLoop (ext : External) (search : String) (emojis : List String) : List String :=
  emojis.foldl
    (fun filtered emoji =>
      if Contains (ToLower ext (ext.EmojiKeywords emoji)) search then filtered ++ [emoji]
      else filtered)
    []

/-- Method `getFilteredEmojis` of emoji.go. -/
def FormModel.getFilteredEmojis {Hidden : Type} (ext : External) (m : FormModel Hidden) :
    List String :=
  let search := ToLower ext m.emojiSearch
  if search = "" then ext.CommonEmojis
  else filterLoop ext search ext.CommonEmojis

/-- Method `ensureVisibleEmoji` of emoji.go. The two early returns are the first
two branches; the rest follows the assignments of the source one by one. -/
def FormModel.ensureVisibleEmoji {Hidden : Type} (ext : External) (m : FormModel Hidden) :
    FormModel Hidden :=
  if m.emojiIndex = -1 then { m with scrollOffset := 0 }
  else
    let filtered := m.getFilteredEmojis ext
    if filtered.length = 0 then m
    else
      let selectedRow := goDiv m.emojiIndex emojisPerRow
      let scroll1 :=
        if selectedRow < m.scrollOffset then selectedRow
        else if selectedRow ≥ m.scrollOffset + maxVisibleRows then
          selectedRow - maxVisibleRows + 1
        else m.scrollOffset
      let totalRows := goDiv ((filtered.length : Int) + emojisPerRow - 1) emojisPerRow
      let maxScroll0 := totalRows - maxVisibleRows
      let maxScroll := if maxScroll0 < 0 then 0 else maxScroll0
      let scroll2 := if scroll1 > maxScroll then maxScroll else scroll1
      let scroll3 := if scroll2 < 0 then 0 else scroll2
      { m with scrollOffset := scroll3 }

/-- Expression `totalRows` of emoji.go for a filtered list of the given length. -/
def totalRows (filteredLength : Int) : Int :=
  goDiv (filteredLength + emojisPerRow - 1) emojisPerRow

/-- A value of a 64-bit Go `int`. -/
def isInt64 (x : Int) : Prop := -9223372036854775808 ≤ x ∧ x ≤ 9223372036854775807

/-- Result of a 64-bit Go `int` addition or subtraction: wrapped around. -/
def wrap64 (x : Int) : Int :=
  (x + 9223372036854775808) % 18446744073709551616 - 9223372036854775808

/-- The scroll offset of `ensureVisibleEmoji` after its early returns, with every
addition and subtraction wrapped to 64 bits as the machine does it. -/
def scrollOffset64 (emojiIndex filteredLength scrollOffset : Int) : Int :=
  let selectedRow := goDiv emojiIndex emojisPerRow
  let scroll1 :=
    if selectedRow < scrollOffset then selectedRow
    else if selectedRow ≥ wrap64 (scrollOffset + maxVisibleRows) then
      wrap64 (wrap64 (selectedRow - maxVisibleRows) + 1)
    else scrollOffset
  let totalRows :=
    goDiv (wrap64 (wrap64 (filteredLength + emojisPerRow) - 1)) emojisPerRow
  let maxScroll0 := wrap64 (totalRows - maxVisibleRows)
  let maxScroll := if maxScroll0 < 0 then 0 else maxScroll0
  let scroll2 := if scroll1 > maxScroll then maxScroll else scroll1
  if scroll2 < 0 then 0 else scroll2

/-! ## Declarations of packages model, ui, key and tea that view.go uses -/

/-- The fields of `model.Category` that view.go reads. -/
structure Category where
  ID : Int
  Name : String
  Color : String
  Emoji : String
deriving DecidableEq, Repr

/-- The fields of `model.Habit` that view.go reads. `Category` is a pointer in the
source: `none` is the nil pointer. -/
structure Habit where
  ID : Int
  Name : String
  Emoji : String
  FrequencyType : String
  FrequencyValue : Int
  Category : Option Category
deriving DecidableEq, Repr

/-- A key event `tea.KeyMsg`, identified by the string that names the key. -/
abbrev KeyMsg := String

/-- A `key.Binding`: the names of the keys bound, and whether it is disabled. -/
structure Binding where
  keys : List String
  disabled : Bool
deriving DecidableEq, Repr

/-- Function `key.Matches` of the bubbles library, for one binding: the key is one
of the keys of the binding and the binding is enabled. -/
def Matches (msg : KeyMsg) (b : Binding) : Bool :=
  b.keys.contains msg && !b.disabled

/-- The bindings of `ui.KeyMap` that view.go consults. -/
structure KeyMap where
  Up : Binding
  Down : Binding
  Add : Binding
  Edit : Binding
  Delete : Binding
  Confirm : Binding
  Cancel : Binding
  Back : Binding
deriving DecidableEq, Repr

/-- An asynchronous command `tea.Cmd` returned to the event loop; the nil command
is `none : Option Cmd`. `formCmd` is a command built by the form code. -/
inductive Cmd where
  | loadData
  | saveHabit (h : Habit)
  | deleteHabit (id : Int)
  | formCmd (name : String)
deriving DecidableEq, Repr

/-- Functions of the form (declared in a file that is not embedded) that view.go
calls: `NewForm`, and the methods `Init`, `Update` and `GetHabit` of `FormModel`.
They are parameters of the embedding. -/
structure FormOps (Hidden : Type) where
  NewForm : Option Habit → List Category → Int → Int → FormModel Hidden
  Init : FormModel Hidden → Option Cmd
  Update : FormModel Hidden → KeyMsg → FormModel Hidden × Option Cmd
  GetHabit : FormModel Hidden → Habit

/-! ## view.go: the tab state machine -/

/-- Type `viewMode` of view.go. -/
inductive viewMode where
  | modeList
  | modeForm
  | modeConfirmDelete
deriving DecidableEq, Repr

open viewMode

/-- Struct `Model` of view.go. The two storage services are external collaborators
and occur only inside commands; an `error` is kept as its text. -/
structure Model (Hidden : Type) where
  habits : List Habit
  categories : List Category
  cursor : Int
  mode : viewMode
  form : Option (FormModel Hidden)
  width : Int
  height : Int
  keys : KeyMap
  err : Option String
deriving DecidableEq, Repr

/-- Function `New` of view.go: all fields are zero values except `keys`, which is
`ui.DefaultKeyMap`, a constant outside the embedded files. -/
def New {Hidden : Type} (DefaultKeyMap : KeyMap) : Model Hidden :=
  { habits := [], categories := [], cursor := 0, mode := modeList, form := none,
    width := 0, height := 0, keys := DefaultKeyMap, err := none }

/-- The messages that `Update` distinguishes; `other` is any other `tea.Msg`. -/
inductive Msg where
  | HabitsLoadedMsg (Habits : List Habit) (Categories : List Category) (Err : Option String)
  | HabitSavedMsg (Habit : Option Habit) (Err : Option String)
  | HabitDeletedMsg (Err : Option String)
  | WindowSizeMsg (Width : Int) (Height : Int)
  | KeyMsg (key : KeyMsg)
  | other
deriving DecidableEq, Repr

/-- Indexing `xs[i]` of a Go slice by an `int`: `none` is the run-time panic. -/
def index {α : Type} (xs : List α) (i : Int) : Option α :=
  if 0 ≤ i ∧ i < xs.length then xs[i.toNat]? else none

/-- Method `handleKey` of view.go. -/
def Model.handleKey {Hidden : Type} (ops : FormOps Hidden) (m : Model Hidden) (msg : KeyMsg) :
    Option (Model Hidden × Option Cmd) :=
  match m.mode with
  | modeList =>
    if Matches msg m.keys.Up then
      if m.cursor > 0 then some ({ m with cursor := m.cursor - 1 }, none) else some (m, none)
    else if Matches msg m.keys.Down then
      if m.cursor < (m.habits.length : Int) - 1 then
        some ({ m with cursor := m.cursor + 1 }, none)
      else some (m, none)
    else if Matches msg m.keys.Add then
      let form := ops.NewForm none m.categories m.width m.height
      some ({ m with form := some form, mode := modeForm }, ops.Init form)
    else if Matches msg m.keys.Edit then
      if m.habits.length > 0 then
        match index m.habits m.cursor with
        | none => none
        | some habit =>
          let form := ops.NewForm (some habit) m.categories m.width m.height
          some ({ m with form := some form, mode := modeForm }, ops.Init form)
      else some (m, none)
    else if Matches msg m.keys.Delete then
      if m.habits.length > 0 then some ({ m with mode := modeConfirmDelete }, none)
      else some (m, none)
    else some (m, none)
  | modeForm =>
    match m.form with
    | some form =>
      if form.cancelled then some ({ m with mode := modeList, form := none }, none)
      else if form.submitted then some (m, some (Cmd.saveHabit (ops.GetHabit form)))
      else some (m, none)
    | none => some (m, none)
  | modeConfirmDelete =>
    if Matches msg m.keys.Confirm then
      if m.habits.length > 0 then
        match index m.habits m.cursor with
        | none => none
        | some habit => some (m, some (Cmd.deleteHabit habit.ID))
      else some (m, none)
    else if Matches msg m.keys.Cancel || Matches msg m.keys.Back then
      some ({ m with mode := modeList }, none)
    else some (m, none)

/-- Method `Update` of view.go. -/
def Model.Update {Hidden : Type} (ops : FormOps Hidden) (m : Model Hidden) (msg : Msg) :
    Option (Model Hidden × Option Cmd) :=
  match msg with
  | Msg.HabitsLoadedMsg habits categories err =>
    match err with
    | some e => some ({ m with err := some e }, none)
    | none => some ({ m with habits := habits, categories := categories }, none)
  | Msg.HabitSavedMsg _ err =>
    match err with
    | some e => some ({ m with err := some e }, none)
    | none => some ({ m with mode := modeList, form := none }, some Cmd.loadData)
  | Msg.HabitDeletedMsg err =>
    match err with
    | some e => some ({ m with err := some e }, none)
    | none =>
      let cursor :=
        if m.cursor ≥ (m.habits.length : Int) - 1 ∧ m.cursor > 0 then m.cursor - 1
        else m.cursor
      some ({ m with mode := modeList, cursor := cursor }, some Cmd.loadData)
  | Msg.WindowSizeMsg width height =>
    let form := m.form.map (fun f => { f with width := width, height := height })
    some ({ m with width := width, height := height, form := form }, none)
  | Msg.KeyMsg key =>
    match m.mode, m.form with
    | modeForm, some form =>
      let r := ops.Update form key
      if r.1.cancelled then some ({ m with mode := modeList, form := none }, none)
      else if r.1.submitted then
        some ({ m with form := some r.1 }, some (Cmd.saveHabit (ops.GetHabit r.1)))
      else some ({ m with form := some r.1 }, r.2)
    | _, _ => m.handleKey ops key
  | Msg.other => some (m, none)

/-- The states that the tab reaches from `New` by a sequence of `Update` calls. -/
inductive Reachable {Hidden : Type} (ops : FormOps Hidden) (DefaultKeyMap : KeyMap) :
    Model Hidden → Prop where
  | init : Reachable ops DefaultKeyMap (New DefaultKeyMap)
  | step (m m1 : Model Hidden) (msg : Msg) (cmd : Option Cmd) :
      Reachable ops DefaultKeyMap m → m.Update ops msg = some (m1, cmd) →
      Reachable ops DefaultKeyMap m1

/-! ## view.go: the renderer -/

/-- Constants `model.FreqDaily`, `model.FreqWeekly` and `model.FreqTimesPerWeek`.
Their declaration is outside the embedded files; the values are the frequency
types that main.go stores for its seed habits. -/
def FreqDaily : String := "daily"

/-- See `FreqDaily`. -/
def FreqWeekly : String := "weekly"

/-- See `FreqDaily`. -/
def FreqTimesPerWeek : String := "times_per_week"

/-- Method `formatFrequency` of view.go; `%d` is the decimal rendering. -/
def formatFrequency (h : Habit) : String :=
  if h.FrequencyType = FreqDaily then "(daily)"
  else if h.FrequencyType = FreqWeekly then "(weekly)"
  else if h.FrequencyType = FreqTimesPerWeek then "(" ++ toString h.FrequencyValue ++ "x/week)"
  else ""

/-- The pieces that `renderHabitLine` formats into one line: the cursor marker,
the emoji prefix, the name together with whether it gets the selected style, and
the frequency suffix (drawn muted). -/
structure HabitLine where
  cursor : String
  habitEmoji : String
  name : String
  selected : Bool
  freq : String
deriving DecidableEq, Repr

/-- One line of rendered text: `muted` is `ui.MutedText.Render`, `title` the bold
style with a foreground colour, `habit` a call `renderHabitLine(habit, index)`
with its result, `plain` unstyled text. -/
inductive Line where
  | muted (text : String)
  | title (color : String) (text : String)
  | habit (habit : Habit) (index : Int) (line : HabitLine)
  | plain (text : String)
deriving DecidableEq, Repr

/-- Method `renderHabitLine` of view.go. -/
def Model.renderHabitLine {Hidden : Type} (m : Model Hidden) (habit : Habit) (index : Int) :
    HabitLine :=
  { cursor := if index = m.cursor then "> " else "  ",
    habitEmoji := if habit.Emoji ≠ "" then habit.Emoji ++ " " else "",
    name := habit.Name,
    selected := decide (index = m.cursor),
    freq := formatFrequency habit }

/-- Local struct `categoryGroup` of `renderListContent`. -/
structure categoryGroup where
  category : Option Category
  habits : List Habit

/-- The two variables that the grouping loop of `renderListContent` fills: the map
`categoryMap` (a missing key is `none`) and the slice `uncategorized`. -/
structure Groups where
  categoryMap : Int → Option categoryGroup
  uncategorized : List Habit

/-- One iteration of the grouping loop of `renderListContent`. -/
def groupStep (g : Groups) (habit : Habit) : Groups :=
  match habit.Category with
  | some category =>
    let catID := category.ID
    let categoryMap1 : Int → Option categoryGroup :=
      if (g.categoryMap catID).isNone then
        fun k => if k = catID then some { category := habit.Category, habits := [] }
                 else g.categoryMap k
      else g.categoryMap
    { g with
      categoryMap := fun k =>
        if k = catID then
          (categoryMap1 catID).map (fun grp => { grp with habits := grp.habits ++ [habit] })
        else categoryMap1 k }
  | none => { g with uncategorized := g.uncategorized ++ [habit] }

/-- The grouping loop of `renderListContent`. -/
def groupHabits (habits : List Habit) : Groups :=
  habits.foldl groupStep { categoryMap := fun _ => none, uncategorized := [] }

/-- The variables of the rendering loops of `renderListContent`: the text `s`, as
lines, `currentIndex` and `firstCategory`. -/
structure RenderState where
  s : List Line
  currentIndex : Int
  firstCategory : Bool

/-- The separator that `renderListContent` draws between groups. -/
def separator : Line := Line.muted "────────────────────────────────"

/-- The inner loops of `renderListContent`: one habit line per habit of a group. -/
def renderGroupHabits {Hidden : Type} (m : Model Hidden) (habits : List Habit)
    (st : RenderState) : RenderState :=
  habits.foldl
    (fun st habit =>
      { st with
        s := st.s ++ [Line.habit habit st.currentIndex (m.renderHabitLine habit st.currentIndex)],
        currentIndex := st.currentIndex + 1 })
    st

/-- One iteration of the loop over `m.categories` of `renderListContent`. -/
def renderCategory {Hidden : Type} (m : Model Hidden) (categoryMap : Int → Option categoryGroup)
    (st : RenderState) (cat : Category) : RenderState :=
  match categoryMap cat.ID with
  | some group =>
    let s1 := if !st.firstCategory then st.s ++ [separator] else st.s
    let emoji := if cat.Emoji = "" then "📁" else cat.Emoji
    let s2 := s1 ++ [Line.title cat.Color (cat.Name ++ " " ++ emoji)]
    renderGroupHabits m group.habits { s := s2, currentIndex := st.currentIndex, firstCategory := false }
  | none => st

/-- Method `renderListContent` of view.go. -/
def Model.renderListContent {Hidden : Type} (m : Model Hidden) : List Line :=
  if m.habits.length = 0 then [Line.muted "No habits yet. Press 'a' to add one."]
  else
    let g := groupHabits m.habits
    let st1 := m.categories.foldl (renderCategory m g.categoryMap)
      { s := [], currentIndex := 0, firstCategory := true }
    let st2 :=
      if g.uncategorized.length > 0 then
        let s1 := if !st1.firstCategory then st1.s ++ [separator] else st1.s
        renderGroupHabits m g.uncategorized
          { st1 with s := s1 ++ [Line.muted "Uncategorized"] }
      else st1
    st2.s ++ [Line.plain "", Line.muted "a: add  e: edit  d: delete"]

/-- Method `renderConfirmDeleteContent` of view.go: the three lines it joins;
`none` is the panic of `m.habits[m.cursor]`. -/
def Model.renderConfirmDeleteContent {Hidden : Type} (m : Model Hidden) : Option (List Line) :=
  match index m.habits m.cursor with
  | none => none
  | some habit =>
    some [Line.plain ("Are you sure you want to delete '" ++ habit.Name ++ "'?"),
          Line.plain "",
          Line.muted "y: confirm  n: cancel"]

/-- The habit lines of a rendered text, top to bottom: the habit drawn and the
index it was drawn with. -/
def habitLines (ls : List Line) : List (Habit × Int) :=
  ls.filterMap (fun l =>
    match l with
    | Line.habit habit idx _ => some (habit, idx)
    | _ => none)

/-- The flattened grouped display order: the habits of the habit lines that
`renderListContent` draws, top to bottom. -/
def Model.displayOrder {Hidden : Type} (m : Model Hidden) : List Habit :=
  (habitLines m.renderListContent).map Prod.fst

/-- The habits that `renderListContent` draws with the cursor marker `"> "`. -/
def Model.markedHabits {Hidden : Type} (m : Model Hidden) : List Habit :=
  m.renderListContent.filterMap (fun l =>
    match l with
    | Line.habit habit _ line => if line.cursor = "> " then some habit else none
    | _ => none)

/-! ## view.go: the views -/

/-- Methods `View` and `ViewContent` of `FormModel`, declared in a file that is not
embedded: parameters of the embedding. -/
structure FormViews (Hidden : Type) where
  View : FormModel Hidden → List Line
  ViewContent : FormModel Hidden → List Line

/-- The line `ui.MutedText.Render(fmt.Sprintf("Error: %v", m.err))` that `View` and
`ViewContent` return for a stored error. -/
def errorLine (e : String) : Line := Line.muted ("Error: " ++ e)

/-- The style `ui.Title`: bold, with the foreground colour `ui.Foreground`. -/
def uiTitle (text : String) : Line := Line.title "#F9FAFB" text

/-- Method `renderList` of view.go. -/
def Model.renderList {Hidden : Type} (m : Model Hidden) : List Line :=
  [uiTitle "Manage Habits", Line.plain ""] ++ m.renderListContent

/-- Method `renderConfirmDelete` of view.go; `none` is the panic of the content. -/
def Model.renderConfirmDelete {Hidden : Type} (m : Model Hidden) : Option (List Line) :=
  match m.renderConfirmDeleteContent with
  | none => none
  | some content => some ([uiTitle "Delete Habit", Line.plain ""] ++ content)

/-- Method `View` of view.go. -/
def Model.View {Hidden : Type} (views : FormViews Hidden) (m : Model Hidden) :
    Option (List Line) :=
  match m.err with
  | some e => some [errorLine e]
  | none =>
    match m.mode with
    | modeForm =>
      match m.form with
      | some form => some (views.View form)
      | none => some m.renderList
    | modeConfirmDelete => m.renderConfirmDelete
    | modeList => some m.renderList

/-- Method `ViewContent` of view.go. -/
def Model.ViewContent {Hidden : Type} (views : FormViews Hidden) (m : Model Hidden) :
    Option (List Line) :=
  match m.err with
  | some e => some [errorLine e]
  | none =>
    match m.mode with
    | modeForm =>
      match m.form with
      | some form => some (views.ViewContent form)
      | none => some m.renderListContent
    | modeConfirmDelete => m.renderConfirmDeleteContent
    | modeList => some m.renderListContent

/-! ## emoji.go: the emoji picker modal -/

/-- The values `a, a + 1, ...` that a loop counter starting at `a` takes in `n`
iterations. -/
def upFrom (a : Int) : Nat → List Int
  | 0 => []
  | n + 1 => a :: upFrom (a + 1) n

/-- One cell of the emoji grid: the index `idx` into the filtered list, the emoji
there, and the text `display` that is drawn for it. -/
structure Cell where
  idx : Int
  emoji : String
  display : String
deriving DecidableEq, Repr

/-- One line of the text of the emoji modal: a styled text line, or the row `row`
of the grid, whose cells `lipgloss.JoinHorizontal` puts side by side. -/
inductive ModalLine where
  | text (line : Line)
  | row (row : Int) (cells : List Cell)
deriving DecidableEq, Repr

/-- The cell that `renderEmojiModalBox` draws for the emoji at index `idx`. -/
def emojiCell (emojiIndex : Int) (idx : Int) (emoji : String) : Cell :=
  { idx := idx, emoji := emoji,
    display := if idx = emojiIndex then "[" ++ emoji ++ "]" else " " ++ emoji ++ " " }

/-- The inner loop of `renderEmojiModalBox` over the columns `cols` of one row: it
ends at the first index beyond the filtered list; `none` is the panic of
`filtered[idx]`. -/
def renderEmojiRow (filtered : List String) (emojiIndex : Int) (row : Int) :
    List Int → Option (List Cell)
  | [] => some []
  | col :: cols =>
    let idx := row * emojisPerRow + col
    if idx ≥ (filtered.length : Int) then some []
    else
      match index filtered idx with
      | none => none
      | some emoji =>
        match renderEmojiRow filtered emojiIndex row cols with
        | none => none
        | some rowEmojis => some (emojiCell emojiIndex idx emoji :: rowEmojis)

/-- The outer loop of `renderEmojiModalBox` over the visible rows. -/
def renderEmojiRows (filtered : List String) (emojiIndex : Int) :
    List Int → Option (List ModalLine)
  | [] => some []
  | row :: rows =>
    match renderEmojiRow filtered emojiIndex row (upFrom 0 emojisPerRow.toNat) with
    | none => none
    | some rowEmojis =>
      match renderEmojiRows filtered emojiIndex rows with
      | none => none
      | some rest => some (ModalLine.row row rowEmojis :: rest)

/-- The scroll indicator that `renderEmojiModalBox` draws above the grid. -/
def moreAbove : ModalLine := ModalLine.text (Line.muted "        ▲ more above ▲")

/-- The scroll indicator that `renderEmojiModalBox` draws below the grid. -/
def moreBelow : ModalLine := ModalLine.text (Line.muted "        ▼ more below ▼")

/-- The lines of `renderEmojiModalBox` before the grid: title, search input (drawn
as its value), and the option "(none)". -/
def modalHead {Hidden : Type} (m : FormModel Hidden) : List ModalLine :=
  [ModalLine.text (uiTitle "Pick an Emoji"), ModalLine.text (Line.plain ""),
   ModalLine.text (Line.plain ("Search: " ++ m.emojiSearch)), ModalLine.text (Line.plain ""),
   ModalLine.text (Line.plain (if m.emojiIndex = -1 then "[(none)]" else " (none) ")),
   ModalLine.text (Line.plain "")]

/-- The lines of `renderEmojiModalBox` after the grid: an empty line and the help. -/
def modalFoot : List ModalLine :=
  [ModalLine.text (Line.plain ""),
   ModalLine.text
     (Line.muted "↑↓←→: navigate  pgup/pgdn: scroll  enter: select  esc: cancel")]

/-- Method `renderEmojiModalBox` of emoji.go: the lines that it puts into the modal
box, top to bottom; `none` is the panic of an index out of range. -/
def FormModel.renderEmojiModalBox {Hidden : Type} (ext : External) (m : FormModel Hidden) :
    Option (List ModalLine) :=
  let filtered := m.getFilteredEmojis ext
  let grid : Option (List ModalLine) :=
    if filtered.length = 0 then some [ModalLine.text (Line.muted "No emojis found")]
    else
      let totalRows := goDiv ((filtered.length : Int) + emojisPerRow - 1) emojisPerRow
      let startRow := m.scrollOffset
      let endRow0 := startRow + maxVisibleRows
      let endRow := if endRow0 > totalRows then totalRows else endRow0
      let above := if startRow > 0 then [moreAbove] else []
      match renderEmojiRows filtered m.emojiIndex (upFrom startRow (endRow - startRow).toNat) with
      | none => none
      | some rows =>
        let below := if endRow < totalRows then [moreBelow] else []
        some (above ++ rows ++ below)
  match grid with
  | none => none
  | some lines => some (modalHead m ++ lines ++ modalFoot)

/-- The rows of the grid in the text of the modal, top to bottom. -/
def modalRows (lines : List ModalLine) : List (Int × List Cell) :=
  lines.filterMap (fun l =>
    match l with
    | ModalLine.row row cells => some (row, cells)
    | ModalLine.text _ => none)

/-- Reference description of one row of the emoji grid: the cells of the indices
`row * 8, row * 8 + 1, ...` of the filtered list, at most eight and not beyond the
end of the list, from left to right. -/
def gridRow (filtered : List String) (emojiIndex : Int) (row : Int) : List Cell :=
  (upFrom (row * 8) (min 8 ((filtered.length : Int) - row * 8).toNat)).map
    (fun idx => emojiCell emojiIndex idx ((index filtered idx).getD ""))

/-! ## Reference descriptions of the grouping -/

/-- The habits that refer to the category with the given id, in load order. -/
def habitsOfCategory (catID : Int) (habits : List Habit) : List Habit :=
  habits.filter (fun h => decide (h.Category.map Category.ID = some catID))

/-- The habits without a category reference, in load order. -/
def habitsWithoutCategory (habits : List Habit) : List Habit :=
  habits.filter (fun h => h.Category.isNone)

/-- The habit lines of one group: one line per habit, with consecutive indices
that begin at `start`. -/
def groupLines {Hidden : Type} (m : Model Hidden) : List Habit → Int → List Line
  | [], _ => []
  | habit :: rest, start =>
    Line.habit habit start (m.renderHabitLine habit start) :: groupLines m rest (start + 1)

/-- The grouping variables hold the groups of the habits `done`: `uncategorized`
is the list of habits without category, and `categoryMap` has an entry exactly for
the ids that occur, with the habits of that id in load order. -/
def GroupsOf (g : Groups) (done : List Habit) : Prop :=
  g.uncategorized = habitsWithoutCategory done ∧
  ∀ k : Int, (g.categoryMap k).map categoryGroup.habits
    = if habitsOfCategory k done = [] then none else some (habitsOfCategory k done)

/-- The habits of the habit lines of a text, top to bottom. -/
def shownHabits (ls : List Line) : List Habit :=
  (habitLines ls).map Prod.fst

/-- The grouped display order in the words of the specification: for each
category in the order the categories were loaded, the habits whose category id is
the id of that category, in their load order (a category without habits adds
nothing), followed by the habits with no category reference, in their load order. -/
def referenceDisplayOrder (habits : List Habit) (categories : List Category) : List Habit :=
  categories.flatMap (fun c => habitsOfCategory c.ID habits) ++ habitsWithoutCategory habits

/-- The header line of the group of a loaded category: name and emoji (a folder
glyph when the category has none) in bold with the colour of the category. -/
def categoryHeader (cat : Category) : Line :=
  Line.title cat.Color (cat.Name ++ " " ++ (if cat.Emoji = "" then "📁" else cat.Emoji))

/-- The group of a loaded category, when it has at least one habit: its header and
its habits in load order. -/
def categoryGroupOf (habits : List Habit) (cat : Category) : Option (Line × List Habit) :=
  if habitsOfCategory cat.ID habits = [] then none
  else some (categoryHeader cat, habitsOfCategory cat.ID habits)

/-- The groups to render in the words of the specification: one per loaded category
that has at least one habit, in category order, and the group "Uncategorized" at the
end when some habit has no category. A group is its header and its habits. -/
def renderedGroups (habits : List Habit) (categories : List Category) :
    List (Line × List Habit) :=
  categories.filterMap (categoryGroupOf habits)
    ++ (if habitsWithoutCategory habits = [] then []
        else [(Line.muted "Uncategorized", habitsWithoutCategory habits)])

/-- The text of a sequence of groups: for each group its header and its habit
lines, with a separator line immediately before the header of every group except
the first one (`first` says that no group was drawn before). The habit lines are
numbered consecutively from `start`. -/
def groupsText {Hidden : Type} (m : Model Hidden) :
    List (Line × List Habit) → Int → Bool → List Line
  | [], _, _ => []
  | (header, habits) :: rest, start, first =>
    (if first then [] else [separator])
      ++ header :: groupLines m habits start
      ++ groupsText m rest (start + (habits.length : Int)) false

/-- The number of habits of a sequence of groups. -/
def groupsSize : List (Line × List Habit) → Int
  | [] => 0
  | (_, habits) :: rest => (habits.length : Int) + groupsSize rest

/-! ## Concrete inputs on which the definitions are evaluated -/

/-- A small instance of the imported tables: three emojis with keywords, and the
ASCII lower-case mapping for `strings.ToLower`. -/
def sampleExternal : External :=
  { CommonEmojis := ["😀", "🔥", "📚"],
    EmojiKeywords := fun emoji =>
      if emoji = "😀" then "grinning face happy"
      else if emoji = "🔥" then "fire hot"
      else if emoji = "📚" then "books read study"
      else "",
    lowerRune := Char.toLower }

/-- A form state with the given search text, selection and scroll offset; all
other fields are zero values. -/
def sampleForm (emojiSearch : String) (emojiIndex scrollOffset : Int) : FormModel Unit :=
  { emojiSearch := emojiSearch, emojiIndex := emojiIndex, scrollOffset := scrollOffset,
    selectedEmoji := "", showCategoryModal := false, showEmojiModal := false,
    submitted := false, cancelled := false, width := 0, height := 0, hidden := () }

/-- Modelled from the spec: `ui.DefaultKeyMap` is declared outside the embedded
files. The spec names the actions of the tab (up, down, add, edit, delete,
confirm, cancel, back); the keys are those of the help lines of view.go
(`a: add  e: edit  d: delete`, `y: confirm  n: cancel`) and the usual arrow and
escape keys. The theorems about all states do not depend on it. -/
def DefaultKeyMap : KeyMap :=
  { Up := { keys := ["up", "k"], disabled := false },
    Down := { keys := ["down", "j"], disabled := false },
    Add := { keys := ["a"], disabled := false },
    Edit := { keys := ["e"], disabled := false },
    Delete := { keys := ["d"], disabled := false },
    Confirm := { keys := ["y"], disabled := false },
    Cancel := { keys := ["n"], disabled := false },
    Back := { keys := ["esc"], disabled := false } }

/-- Stand-in for the form functions, used where the state machine is evaluated on
a concrete input: the hidden part of a form is the habit it was created from, a
key leaves the form as it is, and no form command is issued. -/
def sampleFormOps : FormOps (Option Habit) :=
  { NewForm := fun habit _ width height =>
      { emojiSearch := "", emojiIndex := -1, scrollOffset := 0, selectedEmoji := "",
        showCategoryModal := false, showEmojiModal := false, submitted := false,
        cancelled := false, width := width, height := height, hidden := habit },
    Init := fun _ => none,
    Update := fun form _ => (form, none),
    GetHabit := fun form =>
      form.hidden.getD
        { ID := 0, Name := "", Emoji := "", FrequencyType := FreqDaily, FrequencyValue := 1,
          Category := none } }

/-- Sample category "Work", id 1. -/
def catWork : Category := { ID := 1, Name := "Work", Color := "#3B82F6", Emoji := "" }

/-- Sample category "Health", id 2. -/
def catHealth : Category := { ID := 2, Name := "Health", Color := "#10B981", Emoji := "" }

/-- Sample habit "Run", id 1, of category "Health". -/
def habitRun : Habit :=
  { ID := 1, Name := "Run", Emoji := "", FrequencyType := FreqDaily, FrequencyValue := 1,
    Category := some catHealth }

/-- Sample habit "Review", id 2, of category "Work". -/
def habitReview : Habit :=
  { ID := 2, Name := "Review", Emoji := "", FrequencyType := FreqWeekly, FrequencyValue := 1,
    Category := some catWork }

/-- Sample habit "Read", id 3, without a category. -/
def habitRead : Habit :=
  { ID := 3, Name := "Read", Emoji := "", FrequencyType := FreqDaily, FrequencyValue := 1,
    Category := none }

/-- A tab state with the given habits, categories, cursor and mode, no form, no
error, and the key map `DefaultKeyMap`. -/
def sampleModel (habits : List Habit) (categories : List Category) (cursor : Int)
    (mode : viewMode) : Model (Option Habit) :=
  { habits := habits, categories := categories, cursor := cursor, mode := mode, form := none,
    width := 80, height := 24, keys := DefaultKeyMap, err := none }

/-- The state after a sequence of messages is handled by `Update`, one after the
other; `none` when one of the calls panics. -/
def runUpdates {Hidden : Type} (ops : FormOps Hidden) (m : Model Hidden) :
    List Msg → Option (Model Hidden)
  | [] => some m
  | msg :: rest =>
    match m.Update ops msg with
    | some (m1, _) => runUpdates ops m1 rest
    | none => none

/-- A form on which both the cancelled and the submitted flag are set. -/
def cancelledForm : FormModel (Option Habit) :=
  { sampleFormOps.NewForm none [] 80 24 with cancelled := true, submitted := true }

/-- A habit to be done three times per week. -/
def habitGym : Habit :=
  { ID := 4, Name := "Gym", Emoji := "", FrequencyType := FreqTimesPerWeek, FrequencyValue := 3,
    Category := none }

/-- Stand-in for the views of the form: the form is drawn as one line. -/
def sampleFormViews : FormViews (Option Habit) :=
  { View := fun _ => [Line.plain "form"], ViewContent := fun _ => [Line.plain "form"] }

/-- A table of seventy entries "e0", ..., "e69" without keywords: nine rows of
the grid. -/
def seventyEmojis : External :=
  { CommonEmojis := (List.range 70).map (fun n => "e" ++ toString n),
    EmojiKeywords := fun _ => "",
    lowerRune := Char.toLower }

end Habits

/-! # Theorems -/

namespace Habits

open viewMode

/-! ## emoji.go -/

/-- On a non-negative dividend Go's quotient by 8 is the floor quotient. -/
theorem goDiv_eight_of_nonneg (a : Int) (h : 0 ≤ a) : goDiv a 8 = a / 8 := by
  unfold goDiv
  exact Int.tdiv_eq_ediv h (by decide)

/-- Go's quotient by 8 of a negative dividend lies in `(a / 8, 0]`. -/
theorem goDiv_eight_of_neg (a : Int) (h : a < 0) : a ≤ 8 * goDiv a 8 ∧ goDiv a 8 ≤ 0 := by
  unfold goDiv
  obtain ⟨n, rfl⟩ : ∃ n : Nat, a = -((n : Int) + 1) := ⟨(-a - 1).toNat, by omega⟩
  have h1 : Int.tdiv (-((n : Int) + 1)) 8 = -(((n : Int) + 1) / 8) := by
    rw [Int.neg_tdiv, Int.tdiv_eq_ediv (by omega) (by decide)]
  rw [h1]
  omega

/-- The append loop of `getFilteredEmojis` started from `acc` appends the emojis
that pass the test, in order. -/
theorem filterLoop_foldl (ext : External) (search : String) (emojis acc : List String) :
    emojis.foldl
      (fun filtered emoji =>
        if Contains (ToLower ext (ext.EmojiKeywords emoji)) search then filtered ++ [emoji]
        else filtered)
      acc
    = acc ++ emojis.filter (fun emoji => Contains (ToLower ext (ext.EmojiKeywords emoji)) search) := by
  induction emojis generalizing acc with
  | nil => simp
  | cons e es ih =>
    simp only [List.foldl_cons, List.filter_cons]
    rw [ih]
    by_cases hc : Contains (ToLower ext (ext.EmojiKeywords e)) search = true
    · simp [hc]
    · simp [hc]

/-- The loop of `getFilteredEmojis` is a filter of the emoji list. -/
theorem filterLoop_eq_filter (ext : External) (search : String) (emojis : List String) :
    filterLoop ext search emojis
    = emojis.filter (fun emoji => Contains (ToLower ext (ext.EmojiKeywords emoji)) search) := by
  unfold filterLoop
  rw [filterLoop_foldl]
  simp

/-- The scroll offset that `ensureVisibleEmoji` leaves when the selection is not
`-1` and the filtered list is not empty, written with floor quotients: valid for a
non-negative selection. -/
theorem ensureVisibleEmoji_scrollOffset {Hidden : Type} (ext : External) (m : FormModel Hidden)
    (hidx : m.emojiIndex ≠ -1) (hlen : (m.getFilteredEmojis ext).length ≠ 0) :
    (m.ensureVisibleEmoji ext).scrollOffset =
      (let selectedRow := goDiv m.emojiIndex 8
       let scroll1 :=
         if selectedRow < m.scrollOffset then selectedRow
         else if selectedRow ≥ m.scrollOffset + 8 then selectedRow - 8 + 1
         else m.scrollOffset
       let maxScroll0 := totalRows ((m.getFilteredEmojis ext).length : Int) - 8
       let maxScroll := if maxScroll0 < 0 then 0 else maxScroll0
       let scroll2 := if scroll1 > maxScroll then maxScroll else scroll1
       if scroll2 < 0 then 0 else scroll2) := by
  unfold FormModel.ensureVisibleEmoji
  simp only [hidx, hlen, if_false, totalRows, emojisPerRow, maxVisibleRows]

/-- Wrapping to 64 bits leaves a value of the `int` range as it is. -/
theorem wrap64_of_isInt64 (x : Int) (h : isInt64 x) : wrap64 x = x := by
  unfold isInt64 at h
  unfold wrap64
  omega

/-- No addition or subtraction of `ensureVisibleEmoji` leaves the range of a 64-bit
`int`: on `int` values of `emojiIndex` and `scrollOffset`, and a slice length for
which `len + 8` is an `int`, the wrapped computation gives the scroll offset of
`ensureVisibleEmoji`. -/
theorem ensureVisibleEmoji64_eq {Hidden : Type} (ext : External) (m : FormModel Hidden)
    (hidx : m.emojiIndex ≠ -1) (hlen : (m.getFilteredEmojis ext).length ≠ 0)
    (hi : isInt64 m.emojiIndex) (hs : isInt64 m.scrollOffset)
    (hl : isInt64 (((m.getFilteredEmojis ext).length : Int) + 8)) :
    scrollOffset64 m.emojiIndex ((m.getFilteredEmojis ext).length : Int) m.scrollOffset
      = (m.ensureVisibleEmoji ext).scrollOffset := by
  rw [ensureVisibleEmoji_scrollOffset ext m hidx hlen]
  unfold isInt64 at hi hs hl
  have hrow : -1152921504606846976 ≤ goDiv m.emojiIndex 8 ∧
      goDiv m.emojiIndex 8 ≤ 1152921504606846976 := by
    by_cases hneg : m.emojiIndex < 0
    · have := goDiv_eight_of_neg m.emojiIndex hneg
      omega
    · rw [goDiv_eight_of_nonneg _ (by omega)]
      omega
  have htot : goDiv (((m.getFilteredEmojis ext).length : Int) + 8 - 1) 8
      = (((m.getFilteredEmojis ext).length : Int) + 7) / 8 := by
    rw [goDiv_eight_of_nonneg _ (by omega)]
    omega
  have hw1 : wrap64 (wrap64 (((m.getFilteredEmojis ext).length : Int) + 8) - 1)
      = ((m.getFilteredEmojis ext).length : Int) + 8 - 1 := by
    rw [wrap64_of_isInt64 (((m.getFilteredEmojis ext).length : Int) + 8)
        (by unfold isInt64; omega),
      wrap64_of_isInt64 _ (by unfold isInt64; omega)]
  have hw2 : wrap64 (wrap64 (goDiv m.emojiIndex 8 - 8) + 1) = goDiv m.emojiIndex 8 - 8 + 1 := by
    rw [wrap64_of_isInt64 (goDiv m.emojiIndex 8 - 8) (by unfold isInt64; omega),
      wrap64_of_isInt64 _ (by unfold isInt64; omega)]
  have hw3 : wrap64 (goDiv (((m.getFilteredEmojis ext).length : Int) + 8 - 1) 8 - 8)
      = goDiv (((m.getFilteredEmojis ext).length : Int) + 8 - 1) 8 - 8 := by
    rw [wrap64_of_isInt64 _ (by unfold isInt64; omega)]
  simp only [scrollOffset64, totalRows, emojisPerRow, maxVisibleRows, hw1, hw2, hw3]
  by_cases hlt : goDiv m.emojiIndex 8 < m.scrollOffset
  · simp only [hlt, if_true]
  · have hw4 : wrap64 (m.scrollOffset + 8) = m.scrollOffset + 8 :=
      wrap64_of_isInt64 _ (by unfold isInt64; omega)
    rw [hw4]

/-- Claim C1: when `emojiIndex` is a valid index into the filtered emoji list, then
for every prior `scrollOffset` the row `emojiIndex / 8` of the selection, which the
call does not change, lies in the window `[scrollOffset, scrollOffset + 8)` after
`ensureVisibleEmoji`. -/
theorem ensureVisibleEmoji_selected_row_visible {Hidden : Type} (ext : External)
    (m : FormModel Hidden) (h0 : 0 ≤ m.emojiIndex)
    (h1 : m.emojiIndex < ((m.getFilteredEmojis ext).length : Int)) :
    (m.ensureVisibleEmoji ext).emojiIndex = m.emojiIndex ∧
      (m.ensureVisibleEmoji ext).scrollOffset ≤ m.emojiIndex / 8 ∧
      m.emojiIndex / 8 < (m.ensureVisibleEmoji ext).scrollOffset + 8 := by
  have hidx : m.emojiIndex ≠ -1 := by omega
  have hlen : (m.getFilteredEmojis ext).length ≠ 0 := by omega
  refine ⟨by unfold FormModel.ensureVisibleEmoji; simp only [hidx, hlen, if_false], ?_⟩
  rw [ensureVisibleEmoji_scrollOffset ext m hidx hlen]
  simp only [totalRows, emojisPerRow]
  rw [goDiv_eight_of_nonneg _ h0,
    goDiv_eight_of_nonneg (((m.getFilteredEmojis ext).length : Int) + 8 - 1) (by omega)]
  split_ifs <;> omega

/-- Witness of C1: three emojis, the last one selected, a prior scroll offset of 40. -/
theorem ensureVisibleEmoji_selected_row_visible_witness :
    (0 : Int) ≤ (sampleForm "" 2 40).emojiIndex ∧
      ((sampleForm "" 2 40).ensureVisibleEmoji sampleExternal).emojiIndex
        = (sampleForm "" 2 40).emojiIndex ∧
      ((sampleForm "" 2 40).ensureVisibleEmoji sampleExternal).scrollOffset
        ≤ (sampleForm "" 2 40).emojiIndex / 8 ∧
      (sampleForm "" 2 40).emojiIndex / 8
        < ((sampleForm "" 2 40).ensureVisibleEmoji sampleExternal).scrollOffset + 8 :=
  ⟨by decide,
   ensureVisibleEmoji_selected_row_visible sampleExternal (sampleForm "" 2 40)
     (by decide) (by decide)⟩

/-- Counterexample to C2 as stated: the search text "zzz" matches no keyword, so
the filtered list is empty and `totalRows` is 0; with `emojiIndex = 0` the call
returns early and the scroll offset stays 5, above the maximum 0. -/
theorem ensureVisibleEmoji_empty_filter_keeps_offset :
    (-1 : Int) ≤ (sampleForm "zzz" 0 5).emojiIndex ∧
      (sampleForm "zzz" 0 5).getFilteredEmojis sampleExternal = [] ∧
      ((sampleForm "zzz" 0 5).ensureVisibleEmoji sampleExternal).scrollOffset = 5 ∧
      ¬ ((sampleForm "zzz" 0 5).ensureVisibleEmoji sampleExternal).scrollOffset
          ≤ max 0 (totalRows (((sampleForm "zzz" 0 5).getFilteredEmojis sampleExternal).length : Int) - 8) := by
  decide

/-- The scroll offset after `ensureVisibleEmoji` lies in `[0, max 0 (totalRows - 8)]`
when `emojiIndex` is `-1` or the filtered list is not empty; `totalRows` is the
number of rows of eight that the filtered list fills, rounded up. -/
theorem ensureVisibleEmoji_range_of_selected {Hidden : Type} (ext : External)
    (m : FormModel Hidden)
    (h : m.emojiIndex = -1 ∨ (m.getFilteredEmojis ext).length ≠ 0) :
    0 ≤ (m.ensureVisibleEmoji ext).scrollOffset ∧
      (m.ensureVisibleEmoji ext).scrollOffset
        ≤ max 0 (totalRows ((m.getFilteredEmojis ext).length : Int) - 8) ∧
      totalRows ((m.getFilteredEmojis ext).length : Int)
        = (((m.getFilteredEmojis ext).length : Int) + 7) / 8 := by
  have htot : totalRows ((m.getFilteredEmojis ext).length : Int)
      = (((m.getFilteredEmojis ext).length : Int) + 7) / 8 := by
    simp only [totalRows, emojisPerRow]
    rw [goDiv_eight_of_nonneg _ (by omega)]
    omega
  by_cases hidx : m.emojiIndex = -1
  · have hz : (m.ensureVisibleEmoji ext).scrollOffset = 0 := by
      unfold FormModel.ensureVisibleEmoji
      simp [hidx]
    rw [hz]
    exact ⟨le_refl 0, le_max_left 0 _, htot⟩
  · have hlen : (m.getFilteredEmojis ext).length ≠ 0 := by
      rcases h with h | h
      · exact absurd h hidx
      · exact h
    rw [ensureVisibleEmoji_scrollOffset ext m hidx hlen]
    refine ⟨?_, ?_, htot⟩
    · simp only []
      split_ifs <;> omega
    · simp only []
      split_ifs <;> omega

/-- With an empty filtered list and a selection other than `-1` the call
`ensureVisibleEmoji` returns early: the state is returned as it is. -/
theorem ensureVisibleEmoji_of_empty_filter {Hidden : Type} (ext : External)
    (m : FormModel Hidden) (hidx : m.emojiIndex ≠ -1)
    (hlen : (m.getFilteredEmojis ext).length = 0) : m.ensureVisibleEmoji ext = m := by
  unfold FormModel.ensureVisibleEmoji
  simp [hidx, hlen]

/-- Claim C2, amended: in every form state, for every prior `scrollOffset`: when
`emojiIndex` is `-1` or the filtered list is not empty, the scroll offset after
`ensureVisibleEmoji` lies in `[0, max 0 (totalRows - 8)]`, with
`totalRows = ceil (len filtered / 8)`; and when the filtered list is empty and
`emojiIndex` is not `-1`, the call returns the state as it is, so `scrollOffset` is
what it was. -/
theorem ensureVisibleEmoji_scroll_in_range {Hidden : Type} (ext : External)
    (m : FormModel Hidden) :
    ((m.emojiIndex = -1 ∨ (m.getFilteredEmojis ext).length ≠ 0) →
        0 ≤ (m.ensureVisibleEmoji ext).scrollOffset ∧
          (m.ensureVisibleEmoji ext).scrollOffset
            ≤ max 0 (totalRows ((m.getFilteredEmojis ext).length : Int) - 8) ∧
          totalRows ((m.getFilteredEmojis ext).length : Int)
            = (((m.getFilteredEmojis ext).length : Int) + 7) / 8) ∧
      (m.emojiIndex ≠ -1 → (m.getFilteredEmojis ext).length = 0 →
        m.ensureVisibleEmoji ext = m ∧
          (m.ensureVisibleEmoji ext).scrollOffset = m.scrollOffset) := by
  refine ⟨ensureVisibleEmoji_range_of_selected ext m, ?_⟩
  intro hidx hlen
  have hsame := ensureVisibleEmoji_of_empty_filter ext m hidx hlen
  exact ⟨hsame, by rw [hsame]⟩

/-- Witness of C2 (amended): with three emojis and the selection on the last one
the offset 40 is clamped to 0, inside `[0, 0]`; with the search text "zzz", which
matches nothing, and the selection 0 the state with offset 5 is returned as it
is. -/
theorem ensureVisibleEmoji_scroll_in_range_witness :
    (((sampleForm "" 2 40).emojiIndex = -1 ∨
        ((sampleForm "" 2 40).getFilteredEmojis sampleExternal).length ≠ 0) ∧
      (0 ≤ ((sampleForm "" 2 40).ensureVisibleEmoji sampleExternal).scrollOffset ∧
        ((sampleForm "" 2 40).ensureVisibleEmoji sampleExternal).scrollOffset
          ≤ max 0 (totalRows (((sampleForm "" 2 40).getFilteredEmojis sampleExternal).length : Int) - 8) ∧
        totalRows (((sampleForm "" 2 40).getFilteredEmojis sampleExternal).length : Int)
          = ((((sampleForm "" 2 40).getFilteredEmojis sampleExternal).length : Int) + 7) / 8)) ∧
      ((sampleForm "zzz" 0 5).emojiIndex ≠ -1 ∧
        ((sampleForm "zzz" 0 5).getFilteredEmojis sampleExternal).length = 0 ∧
        (sampleForm "zzz" 0 5).ensureVisibleEmoji sampleExternal = sampleForm "zzz" 0 5 ∧
        ((sampleForm "zzz" 0 5).ensureVisibleEmoji sampleExternal).scrollOffset
          = (sampleForm "zzz" 0 5).scrollOffset) :=
  ⟨⟨by decide,
    (ensureVisibleEmoji_scroll_in_range sampleExternal (sampleForm "" 2 40)).1 (by decide)⟩,
   by decide, by decide,
   (ensureVisibleEmoji_scroll_in_range sampleExternal (sampleForm "zzz" 0 5)).2
     (by decide) (by decide)⟩

/-- Claim C3: for every search text the result of `getFilteredEmojis` is a
subsequence of `CommonEmojis` in the same relative order, and for the empty search
text it is `CommonEmojis` itself. -/
theorem getFilteredEmojis_sublist {Hidden : Type} (ext : External) (m : FormModel Hidden) :
    (m.getFilteredEmojis ext).Sublist ext.CommonEmojis ∧
      ({ m with emojiSearch := "" }).getFilteredEmojis ext = ext.CommonEmojis := by
  constructor
  · unfold FormModel.getFilteredEmojis
    simp only []
    split_ifs
    · exact List.Sublist.refl _
    · rw [filterLoop_eq_filter]
      exact List.filter_sublist _
  · unfold FormModel.getFilteredEmojis
    have : ToLower ext "" = "" := rfl
    simp [this]

/-! ## view.go: the grouping of the renderer -/

/-- One more habit handled by the grouping loop. -/
theorem groupStep_GroupsOf (g : Groups) (done : List Habit) (habit : Habit)
    (hg : GroupsOf g done) : GroupsOf (groupStep g habit) (done ++ [habit]) := by
  obtain ⟨hu, hm⟩ := hg
  unfold groupStep
  cases hc : habit.Category with
  | none =>
    refine ⟨?_, ?_⟩
    · simp [habitsWithoutCategory, List.filter_append, hu, hc]
    · intro k
      have hk : habitsOfCategory k (done ++ [habit]) = habitsOfCategory k done := by
        simp [habitsOfCategory, List.filter_append, hc]
      simp only [hk]
      exact hm k
  | some c =>
    refine ⟨?_, ?_⟩
    · simp [habitsWithoutCategory, List.filter_append, hu, hc]
    · intro k
      by_cases hkc : k = c.ID
      · subst hkc
        have hk : habitsOfCategory c.ID (done ++ [habit])
            = habitsOfCategory c.ID done ++ [habit] := by
          simp [habitsOfCategory, List.filter_append, hc]
        have hne : habitsOfCategory c.ID done ++ [habit] ≠ [] := by simp
        rw [hk, if_neg hne]
        have hmc := hm c.ID
        cases hgc : g.categoryMap c.ID with
        | none =>
          rw [hgc] at hmc
          by_cases he : habitsOfCategory c.ID done = []
          · simp [he, hgc]
          · simp [he] at hmc
        | some grp =>
          rw [hgc] at hmc
          by_cases he : habitsOfCategory c.ID done = []
          · simp [he] at hmc
          · simp only [he, if_false, Option.map_some', Option.some.injEq] at hmc
            simp [hgc, hmc]
      · have hk : habitsOfCategory k (done ++ [habit]) = habitsOfCategory k done := by
          have : ¬ c.ID = k := fun h => hkc h.symm
          simp [habitsOfCategory, List.filter_append, hc, this]
        rw [hk, ← hm k]
        cases hgc : g.categoryMap c.ID <;> simp [hkc, hgc]

/-- The grouping loop run on `habits` from variables that hold the groups of
`done` ends with the groups of `done ++ habits`. -/
theorem foldl_groupStep_GroupsOf (habits : List Habit) (g : Groups) (done : List Habit)
    (hg : GroupsOf g done) : GroupsOf (habits.foldl groupStep g) (done ++ habits) := by
  induction habits generalizing g done with
  | nil => simpa using hg
  | cons habit rest ih =>
    have := ih (groupStep g habit) (done ++ [habit]) (groupStep_GroupsOf g done habit hg)
    simpa using this

/-- The grouping loop of `renderListContent` computes the groups of the habits. -/
theorem groupHabits_GroupsOf (habits : List Habit) : GroupsOf (groupHabits habits) habits := by
  have h0 : GroupsOf { categoryMap := fun _ => none, uncategorized := [] } [] := by
    refine ⟨rfl, ?_⟩
    intro k
    simp [habitsOfCategory]
  simpa [groupHabits] using foldl_groupStep_GroupsOf habits _ [] h0

/-- The habits shown by two texts one after the other. -/
theorem shownHabits_append (a b : List Line) :
    shownHabits (a ++ b) = shownHabits a ++ shownHabits b := by
  simp [shownHabits, habitLines, List.filterMap_append]

/-- The habit lines of a group show the habits of the group, in order. -/
theorem shownHabits_groupLines {Hidden : Type} (m : Model Hidden) (habits : List Habit)
    (start : Int) : shownHabits (groupLines m habits start) = habits := by
  induction habits generalizing start with
  | nil => rfl
  | cons habit rest ih =>
    have := ih (start + 1)
    simp only [shownHabits, habitLines] at this
    simp [groupLines, shownHabits, habitLines, this]

/-- The inner loop of `renderListContent` appends the habit lines of the group and
advances `currentIndex` by the size of the group. -/
theorem renderGroupHabits_eq {Hidden : Type} (m : Model Hidden) (habits : List Habit)
    (st : RenderState) :
    renderGroupHabits m habits st
      = { s := st.s ++ groupLines m habits st.currentIndex,
          currentIndex := st.currentIndex + (habits.length : Int),
          firstCategory := st.firstCategory } := by
  induction habits generalizing st with
  | nil => simp [renderGroupHabits, groupLines]
  | cons habit rest ih =>
    have h := ih { st with
      s := st.s ++ [Line.habit habit st.currentIndex (m.renderHabitLine habit st.currentIndex)],
      currentIndex := st.currentIndex + 1 }
    simp only [renderGroupHabits, List.foldl_cons] at h ⊢
    rw [h]
    simp only [groupLines, List.append_assoc, List.singleton_append, List.length_cons,
      Nat.cast_add, Nat.cast_one]
    congr 1
    omega

/-- The loop over the categories shows, after what was shown before, the habits of
each category of the list in turn. -/
theorem shownHabits_foldl_renderCategory {Hidden : Type} (m : Model Hidden)
    (categoryMap : Int → Option categoryGroup) (habits : List Habit)
    (hmap : ∀ k : Int, (categoryMap k).map categoryGroup.habits
      = if habitsOfCategory k habits = [] then none else some (habitsOfCategory k habits))
    (categories : List Category) (st : RenderState) :
    shownHabits (categories.foldl (renderCategory m categoryMap) st).s
      = shownHabits st.s ++ categories.flatMap (fun c => habitsOfCategory c.ID habits) := by
  induction categories generalizing st with
  | nil => simp
  | cons cat rest ih =>
    simp only [List.foldl_cons, List.flatMap_cons]
    rw [ih]
    have hk := hmap cat.ID
    have hstep : shownHabits (renderCategory m categoryMap st cat).s
        = shownHabits st.s ++ habitsOfCategory cat.ID habits := by
      unfold renderCategory
      cases hc : categoryMap cat.ID with
      | none =>
        rw [hc] at hk
        by_cases he : habitsOfCategory cat.ID habits = []
        · simp [he]
        · simp [he] at hk
      | some group =>
        rw [hc] at hk
        by_cases he : habitsOfCategory cat.ID habits = []
        · simp [he] at hk
        · simp only [he, if_false, Option.map_some', Option.some.injEq] at hk
          simp only [renderGroupHabits_eq, shownHabits_append, shownHabits_groupLines, hk]
          by_cases hf : st.firstCategory = true
          · simp [hf, shownHabits, habitLines]
          · simp [hf, shownHabits, habitLines, separator]
    rw [hstep, List.append_assoc]

/-- The last part of `renderListContent` shows, after what was shown before, the
habits without a category. -/
theorem shownHabits_uncategorized {Hidden : Type} (m : Model Hidden) (st1 : RenderState)
    (uncategorized : List Habit) :
    shownHabits
        (if uncategorized.length > 0 then
          renderGroupHabits m uncategorized
            { st1 with
              s := (if !st1.firstCategory then st1.s ++ [separator] else st1.s)
                ++ [Line.muted "Uncategorized"] }
        else st1).s
      = shownHabits st1.s ++ uncategorized := by
  cases uncategorized with
  | nil => simp
  | cons habit rest =>
    simp only [List.length_cons, gt_iff_lt, Nat.zero_lt_succ, if_true, renderGroupHabits_eq,
      shownHabits_append, shownHabits_groupLines]
    by_cases hf : st1.firstCategory = true
    · simp [hf, shownHabits, habitLines]
    · simp [hf, shownHabits, habitLines, separator]

/-- The flattened display order of `renderListContent`: for each category of the
loaded category list in turn the habits that refer to its id, in load order, and
then the habits without a category, in load order. -/
theorem displayOrder_eq {Hidden : Type} (m : Model Hidden) :
    m.displayOrder
      = m.categories.flatMap (fun c => habitsOfCategory c.ID m.habits)
        ++ habitsWithoutCategory m.habits := by
  have hshown : m.displayOrder = shownHabits m.renderListContent := rfl
  rw [hshown]
  unfold Model.renderListContent
  by_cases hlen : m.habits.length = 0
  · have hnil : m.habits = [] := List.length_eq_zero.mp hlen
    simp [hnil, shownHabits, habitLines, habitsOfCategory, habitsWithoutCategory]
  · obtain ⟨hu, hmap⟩ := groupHabits_GroupsOf m.habits
    have hcats := shownHabits_foldl_renderCategory m (groupHabits m.habits).categoryMap
      m.habits hmap m.categories { s := [], currentIndex := 0, firstCategory := true }
    have htail : shownHabits [Line.plain "", Line.muted "a: add  e: edit  d: delete"] = [] := rfl
    have hnil : shownHabits ([] : List Line) = [] := rfl
    simp only [hlen, if_false]
    rw [shownHabits_append, htail, List.append_nil, shownHabits_uncategorized, hcats, hu, hnil,
      List.nil_append]

/-- How often a habit occurs among the habits of one category. -/
theorem count_habitsOfCategory (a : Habit) (k : Int) (habits : List Habit) :
    (habitsOfCategory k habits).count a
      = if a.Category.map Category.ID = some k then habits.count a else 0 := by
  unfold habitsOfCategory
  by_cases h : a.Category.map Category.ID = some k
  · rw [if_pos h]
    exact List.count_filter (by simpa using h)
  · rw [if_neg h]
    apply List.count_eq_zero_of_not_mem
    intro hmem
    have := (List.mem_filter.mp hmem).2
    exact h (by simpa using this)

/-- How often a habit occurs in the category groups drawn for a category list
whose ids are pairwise different. -/
theorem count_flatMap_habitsOfCategory (a : Habit) (habits : List Habit)
    (categories : List Category) (hnodup : (categories.map Category.ID).Nodup) :
    (categories.flatMap (fun c => habitsOfCategory c.ID habits)).count a
      = match a.Category with
        | some c0 => if c0.ID ∈ categories.map Category.ID then habits.count a else 0
        | none => 0 := by
  induction categories with
  | nil => cases a.Category <;> simp
  | cons c rest ih =>
    rw [List.map_cons, List.nodup_cons] at hnodup
    rw [List.flatMap_cons, List.count_append, ih hnodup.2, count_habitsOfCategory]
    cases hc : a.Category with
    | none => simp
    | some c0 =>
      by_cases hk : c0.ID = c.ID
      · have hnot : c.ID ∉ rest.map Category.ID := hnodup.1
        simp only [List.mem_map] at hnot
        simp [hk, hnot]
      · have hk2 : ¬ c.ID = c0.ID := fun h => hk h.symm
        simp [hk, hk2]

/-- When the ids of the loaded categories are pairwise different and every habit
with a category refers to a loaded category, the display order is a permutation of
the habit list. -/
theorem displayOrder_perm {Hidden : Type} (m : Model Hidden)
    (hnodup : (m.categories.map Category.ID).Nodup)
    (hlisted : ∀ h ∈ m.habits, ∀ c, h.Category = some c →
      c.ID ∈ m.categories.map Category.ID) :
    m.displayOrder.Perm m.habits := by
  rw [displayOrder_eq, List.perm_iff_count]
  intro a
  rw [List.count_append, count_flatMap_habitsOfCategory a m.habits m.categories hnodup]
  have hnone : (habitsWithoutCategory m.habits).count a
      = if a.Category.isNone then m.habits.count a else 0 := by
    unfold habitsWithoutCategory
    by_cases h : a.Category.isNone = true
    · rw [if_pos h]
      exact List.count_filter h
    · rw [if_neg h]
      apply List.count_eq_zero_of_not_mem
      intro hmem
      exact h (List.mem_filter.mp hmem).2
  rw [hnone]
  cases hc : a.Category with
  | none => simp
  | some c0 =>
    by_cases hmem : a ∈ m.habits
    · have := hlisted a hmem c0 hc
      simp [this]
    · have hz : m.habits.count a = 0 := List.count_eq_zero_of_not_mem hmem
      simp [hz]

/-! ## view.go -/

/-- Claim C4, the code at a failing input: habits "Run" (category Health) and
"Review" (category Work) loaded in this order, categories Work, Health, cursor 0.
The renderer draws the cursor marker on "Review", the habit at position 0 of the
display order, while `m.habits[m.cursor]` is "Run": the edit key seeds the form
from "Run", the confirm-delete prompt names "Run" and the confirm key archives the
id 1 of "Run". -/
theorem cursored_habit_is_not_the_marked_habit :
    (sampleModel [habitRun, habitReview] [catWork, catHealth] 0 modeList).displayOrder
        = [habitReview, habitRun] ∧
      (sampleModel [habitRun, habitReview] [catWork, catHealth] 0 modeList).markedHabits
        = [habitReview] ∧
      index (sampleModel [habitRun, habitReview] [catWork, catHealth] 0 modeList).displayOrder 0
        = some habitReview ∧
      index (sampleModel [habitRun, habitReview] [catWork, catHealth] 0 modeList).habits 0
        = some habitRun ∧
      habitRun ≠ habitReview ∧
      (sampleModel [habitRun, habitReview] [catWork, catHealth] 0 modeList).handleKey
          sampleFormOps "e"
        = some ({ sampleModel [habitRun, habitReview] [catWork, catHealth] 0 modeForm with
                  form := some (sampleFormOps.NewForm (some habitRun) [catWork, catHealth] 80 24) },
                none) ∧
      (sampleModel [habitRun, habitReview] [catWork, catHealth] 0
          modeConfirmDelete).renderConfirmDeleteContent
        = some [Line.plain "Are you sure you want to delete 'Run'?", Line.plain "",
                Line.muted "y: confirm  n: cancel"] ∧
      (sampleModel [habitRun, habitReview] [catWork, catHealth] 0 modeConfirmDelete).handleKey
          sampleFormOps "y"
        = some (sampleModel [habitRun, habitReview] [catWork, catHealth] 0 modeConfirmDelete,
                some (Cmd.deleteHabit 1)) := by
  decide

/-- Claim C5, the code at a failing input: the habit "Run" refers to the category
Health, which is not in the loaded category list (Work only). `renderListContent`
draws no habit line at all, only the help line: the display order is empty and is
no permutation of the one loaded habit. -/
theorem habit_of_unlisted_category_is_not_rendered :
    (sampleModel [habitRun] [catWork] 0 modeList).renderListContent
        = [Line.plain "", Line.muted "a: add  e: edit  d: delete"] ∧
      (sampleModel [habitRun] [catWork] 0 modeList).displayOrder = [] ∧
      (sampleModel [habitRun] [catWork] 0 modeList).displayOrder.length
        ≠ (sampleModel [habitRun] [catWork] 0 modeList).habits.length ∧
      ¬ List.Perm (sampleModel [habitRun] [catWork] 0 modeList).displayOrder
          (sampleModel [habitRun] [catWork] 0 modeList).habits := by
  refine ⟨by decide, by decide, by decide, ?_⟩
  intro h
  have hlen := h.length_eq
  revert hlen
  decide

/-- A state reached from a reachable state by a sequence of messages is reachable. -/
theorem reachable_runUpdates {Hidden : Type} (ops : FormOps Hidden) (km : KeyMap)
    (msgs : List Msg) (m m1 : Model Hidden) (hm : Reachable ops km m)
    (hrun : runUpdates ops m msgs = some m1) : Reachable ops km m1 := by
  induction msgs generalizing m with
  | nil =>
    simp only [runUpdates, Option.some.injEq] at hrun
    exact hrun ▸ hm
  | cons msg rest ih =>
    simp only [runUpdates] at hrun
    cases hu : m.Update ops msg with
    | none => simp [hu] at hrun
    | some r =>
      obtain ⟨m2, cmd⟩ := r
      simp only [hu] at hrun
      exact ih m2 (Reachable.step m m2 msg cmd hm hu) hrun

/-- Claim C6, the code at a failing input. From `New`: two habits are loaded, the
down key moves the cursor to 1, the delete key enters confirm-delete mode, and a
reload then delivers one habit only. The state is in confirm-delete mode with
cursor 1 and one habit: the prompt `renderConfirmDeleteContent` panics and so does
the confirm key. When the reload delivers no habit, the state is in confirm-delete
mode with an empty habit list, and the prompt panics as well. -/
theorem confirmDelete_reachable_with_invalid_cursor :
    (∃ m : Model (Option Habit), Reachable sampleFormOps DefaultKeyMap m ∧
        m.mode = modeConfirmDelete ∧ m.habits = [habitRead] ∧ m.cursor = 1 ∧
        ¬ m.cursor < (m.habits.length : Int) ∧
        m.renderConfirmDeleteContent = none ∧
        m.Update sampleFormOps (Msg.KeyMsg "y") = none) ∧
      (∃ m : Model (Option Habit), Reachable sampleFormOps DefaultKeyMap m ∧
        m.mode = modeConfirmDelete ∧ m.habits = [] ∧
        m.renderConfirmDeleteContent = none) := by
  constructor
  · refine ⟨{ (New DefaultKeyMap : Model (Option Habit)) with
        habits := [habitRead], categories := [catHealth], cursor := 1,
        mode := modeConfirmDelete }, ?_, by decide, by decide, by decide, by decide,
      by decide, by decide⟩
    exact reachable_runUpdates sampleFormOps DefaultKeyMap
      [Msg.HabitsLoadedMsg [habitRead, habitRun] [catHealth] none, Msg.KeyMsg "down",
       Msg.KeyMsg "d", Msg.HabitsLoadedMsg [habitRead] [catHealth] none]
      (New DefaultKeyMap) _ Reachable.init (by decide)
  · refine ⟨{ (New DefaultKeyMap : Model (Option Habit)) with
        habits := [], categories := [catHealth], cursor := 0,
        mode := modeConfirmDelete }, ?_, by decide, by decide, by decide⟩
    exact reachable_runUpdates sampleFormOps DefaultKeyMap
      [Msg.HabitsLoadedMsg [habitRead] [catHealth] none, Msg.KeyMsg "d",
       Msg.HabitsLoadedMsg [] [catHealth] none]
      (New DefaultKeyMap) _ Reachable.init (by decide)

/-- Counterexample to C7 as stated: a failed save handled in form mode leaves the
mode at form (and the form in place), and a failed delete handled in
confirm-delete mode leaves the mode at confirm-delete; neither result is in list
mode. -/
theorem failed_save_or_delete_keeps_mode :
    ({ sampleModel [habitRead] [] 0 modeForm with
        form := some (sampleFormOps.NewForm none [] 80 24) }).Update sampleFormOps
        (Msg.HabitSavedMsg none (some "disk full"))
      = some ({ sampleModel [habitRead] [] 0 modeForm with
                form := some (sampleFormOps.NewForm none [] 80 24),
                err := some "disk full" }, none) ∧
    (sampleModel [habitRead] [] 0 modeConfirmDelete).Update sampleFormOps
        (Msg.HabitDeletedMsg (some "disk full"))
      = some ({ sampleModel [habitRead] [] 0 modeConfirmDelete with err := some "disk full" },
              none) ∧
    modeForm ≠ modeList ∧ modeConfirmDelete ≠ modeList := by
  decide

/-- Claim C7, amended: when `Update` handles a `HabitSavedMsg` or a
`HabitDeletedMsg` that carries an error, it stores the error in the error slot,
leaves every other field as it is, the mode included, and returns no command. -/
theorem Update_failed_save_or_delete {Hidden : Type} (ops : FormOps Hidden) (m : Model Hidden)
    (habit : Option Habit) (e : String) :
    m.Update ops (Msg.HabitSavedMsg habit (some e)) = some ({ m with err := some e }, none) ∧
    m.Update ops (Msg.HabitDeletedMsg (some e)) = some ({ m with err := some e }, none) ∧
    ({ m with err := some e } : Model Hidden).mode = m.mode :=
  ⟨rfl, rfl, rfl⟩

/-- Claim C8: in a state with `n ≥ 1` habits and `0 ≤ cursor < n`, a successful
`HabitDeletedMsg` sets the mode to list, requests a reload, changes nothing but
mode and cursor, and leaves the cursor at `min cursor (max 0 (n - 2))`: it is not
negative, it is below `n - 1` when `n ≥ 2`, and it is 0 when `n = 1`. -/
theorem Update_deleted_adjusts_cursor {Hidden : Type} (ops : FormOps Hidden) (m : Model Hidden)
    (hn : 1 ≤ m.habits.length) (h0 : 0 ≤ m.cursor) (h1 : m.cursor < (m.habits.length : Int)) :
    ∃ cursor1 : Int,
      m.Update ops (Msg.HabitDeletedMsg none)
        = some ({ m with mode := modeList, cursor := cursor1 }, some Cmd.loadData) ∧
      cursor1 = min m.cursor (max 0 ((m.habits.length : Int) - 2)) ∧
      0 ≤ cursor1 ∧
      (2 ≤ m.habits.length → cursor1 < (m.habits.length : Int) - 1) ∧
      (m.habits.length = 1 → cursor1 = 0) := by
  refine ⟨if m.cursor ≥ (m.habits.length : Int) - 1 ∧ m.cursor > 0 then m.cursor - 1
      else m.cursor, rfl, ?_, ?_, ?_, ?_⟩
  · split_ifs <;> omega
  · split_ifs <;> omega
  · intro h2
    split_ifs <;> omega
  · intro h2
    split_ifs <;> omega

/-- Witness of C8: the last remaining habit is archived with the cursor on it. -/
theorem Update_deleted_adjusts_cursor_witness :
    1 ≤ (sampleModel [habitRead] [] 0 modeConfirmDelete).habits.length ∧
    ∃ cursor1 : Int,
      (sampleModel [habitRead] [] 0 modeConfirmDelete).Update sampleFormOps
          (Msg.HabitDeletedMsg none)
        = some ({ sampleModel [habitRead] [] 0 modeConfirmDelete with
                  mode := modeList, cursor := cursor1 }, some Cmd.loadData) ∧
      cursor1 = min (sampleModel [habitRead] [] 0 modeConfirmDelete).cursor
          (max 0 (((sampleModel [habitRead] [] 0 modeConfirmDelete).habits.length : Int) - 2)) ∧
      0 ≤ cursor1 ∧
      (2 ≤ (sampleModel [habitRead] [] 0 modeConfirmDelete).habits.length →
        cursor1 < ((sampleModel [habitRead] [] 0 modeConfirmDelete).habits.length : Int) - 1) ∧
      ((sampleModel [habitRead] [] 0 modeConfirmDelete).habits.length = 1 → cursor1 = 0) :=
  ⟨by decide,
   Update_deleted_adjusts_cursor sampleFormOps (sampleModel [habitRead] [] 0 modeConfirmDelete)
     (by decide) (by decide) (by decide)⟩

/-- What the up and down keys of `handleKey` do keep: a cursor inside
`[0, len(habits) - 1]` stays inside it, and nothing but the cursor changes. -/
theorem handleKey_up_down_within_habits {Hidden : Type} (ops : FormOps Hidden)
    (m : Model Hidden) (key : KeyMsg) (hmode : m.mode = modeList)
    (hkey : Matches key m.keys.Up = true ∨ Matches key m.keys.Down = true)
    (h0 : 0 ≤ m.cursor) (h1 : m.cursor ≤ (m.habits.length : Int) - 1) :
    ∃ cursor1 : Int, m.handleKey ops key = some ({ m with cursor := cursor1 }, none) ∧
      0 ≤ cursor1 ∧ cursor1 ≤ (m.habits.length : Int) - 1 := by
  obtain ⟨habits, categories, cursor, mode, form, width, height, keys, err⟩ := m
  simp only at hmode hkey h0 h1
  subst hmode
  unfold Model.handleKey
  simp only
  by_cases hup : Matches key keys.Up = true
  · simp only [hup, if_true]
    by_cases hc : cursor > 0
    · exact ⟨cursor - 1, by simp [hc], by omega, by omega⟩
    · exact ⟨cursor, by simp [hc], h0, h1⟩
  · have hdown : Matches key keys.Down = true := by
      rcases hkey with h | h
      · exact absurd h hup
      · exact h
    simp only [hup, hdown, if_true]
    by_cases hc : cursor < (habits.length : Int) - 1
    · exact ⟨cursor + 1, by simp [hc], by omega, by omega⟩
    · exact ⟨cursor, by simp [hc], h0, h1⟩

/-- Claim C9, the code at a failing input: habits "Read" (no category) and "Run"
(category Health, which is not in the loaded category list), cursor 0 in list
mode. The display order is "Read" alone, so the cursor is inside
`[0, len(displayOrder) - 1] = [0, 0]`; the down key moves it to 1, outside of that
range, because `handleKey` bounds it by `len(habits) - 1 = 1`. -/
theorem down_key_leaves_display_order_range :
    (sampleModel [habitRead, habitRun] [catWork] 0 modeList).displayOrder = [habitRead] ∧
      (0 : Int) ≤ (sampleModel [habitRead, habitRun] [catWork] 0 modeList).cursor ∧
      (sampleModel [habitRead, habitRun] [catWork] 0 modeList).cursor
        ≤ ((sampleModel [habitRead, habitRun] [catWork] 0 modeList).displayOrder.length : Int) - 1 ∧
      Matches "down" (sampleModel [habitRead, habitRun] [catWork] 0 modeList).keys.Down = true ∧
      (sampleModel [habitRead, habitRun] [catWork] 0 modeList).handleKey sampleFormOps "down"
        = some (sampleModel [habitRead, habitRun] [catWork] 1 modeList, none) ∧
      ¬ (sampleModel [habitRead, habitRun] [catWork] 1 modeList).cursor
        ≤ ((sampleModel [habitRead, habitRun] [catWork] 1 modeList).displayOrder.length : Int) - 1 := by
  decide

/-- Counterexample to C10 as stated: in list mode with an empty habit list the add
key returns a state in form mode with a fresh form, not the input state. -/
theorem add_key_on_empty_list_opens_form :
    (sampleModel [] [] 0 modeList).habits = [] ∧
      Matches "a" (sampleModel [] [] 0 modeList).keys.Add = true ∧
      (sampleModel [] [] 0 modeList).handleKey sampleFormOps "a"
        = some ({ sampleModel [] [] 0 modeForm with
                  form := some (sampleFormOps.NewForm none [] 80 24) }, none) ∧
      (sampleModel [] [] 0 modeList).handleKey sampleFormOps "a"
        ≠ some (sampleModel [] [] 0 modeList, none) := by
  decide

/-- Claim C10, amended: in every list-mode state, whether its habit list is empty
or not, the add key (a key of the Add binding that is not a key of the Up or Down
binding, which `handleKey` tests first) opens the form: the result has mode form
and the fresh form `NewForm(nil, categories, width, height)`, the command is
`form.Init()`, and habits, categories, cursor and error are as before. -/
theorem handleKey_add_opens_form {Hidden : Type} (ops : FormOps Hidden) (m : Model Hidden)
    (key : KeyMsg) (hmode : m.mode = modeList) (hup : Matches key m.keys.Up = false)
    (hdown : Matches key m.keys.Down = false) (hadd : Matches key m.keys.Add = true) :
    m.handleKey ops key
      = some ({ m with form := some (ops.NewForm none m.categories m.width m.height),
                       mode := modeForm },
              ops.Init (ops.NewForm none m.categories m.width m.height)) := by
  unfold Model.handleKey
  rw [hmode]
  simp [hup, hdown, hadd]

/-- Witness of C10 (amended): the key "a" on the empty list. -/
theorem handleKey_add_opens_form_witness :
    (sampleModel [] [] 0 modeList).habits = [] ∧
      (sampleModel [] [] 0 modeList).handleKey sampleFormOps "a"
        = some ({ sampleModel [] [] 0 modeList with
                  form := some (sampleFormOps.NewForm none
                    (sampleModel [] [] 0 modeList).categories
                    (sampleModel [] [] 0 modeList).width
                    (sampleModel [] [] 0 modeList).height),
                  mode := modeForm },
                sampleFormOps.Init (sampleFormOps.NewForm none
                  (sampleModel [] [] 0 modeList).categories
                  (sampleModel [] [] 0 modeList).width
                  (sampleModel [] [] 0 modeList).height)) :=
  ⟨by decide,
   handleKey_add_opens_form sampleFormOps (sampleModel [] [] 0 modeList) "a"
     (by decide) (by decide) (by decide) (by decide)⟩

/-- Claim C11: the flattened display order of `renderListContent` is the reference
order of the specification: per loaded category, in category order, the habits of
that category id in load order, then the habits without category in load order.
Every group is a subsequence of the habit list, so two habits of one group keep
their relative load order, and the habits without category come after all habits
with a category. -/
theorem displayOrder_eq_referenceDisplayOrder {Hidden : Type} (m : Model Hidden) :
    m.displayOrder = referenceDisplayOrder m.habits m.categories ∧
      (∀ k : Int, (habitsOfCategory k m.habits).Sublist m.habits) ∧
      (habitsWithoutCategory m.habits).Sublist m.habits ∧
      (∀ h ∈ m.categories.flatMap (fun c => habitsOfCategory c.ID m.habits),
        h.Category ≠ none) ∧
      (∀ h ∈ habitsWithoutCategory m.habits, h.Category = none) := by
  refine ⟨displayOrder_eq m, fun k => List.filter_sublist _, List.filter_sublist _, ?_, ?_⟩
  · intro h hmem
    obtain ⟨c, _, hc⟩ := List.mem_flatMap.mp hmem
    have hp := (List.mem_filter.mp hc).2
    intro hnone
    simp [hnone] at hp
  · intro h hmem
    have hp := (List.mem_filter.mp hmem).2
    simpa using hp

/-- Go `strings.Contains` as embedded is the infix relation on the runes. -/
theorem Contains_iff_isInfix (s substr : String) :
    Contains s substr = true ↔ List.IsInfix substr.data s.data := by
  unfold Contains
  rw [List.any_eq_true, List.infix_iff_prefix_suffix]
  constructor
  · rintro ⟨t, ht, hp⟩
    exact ⟨t, List.isPrefixOf_iff_prefix.mp hp, (List.mem_tails _ _).mp ht⟩
  · rintro ⟨t, hp, ht⟩
    exact ⟨t, (List.mem_tails _ _).mpr ht, List.isPrefixOf_iff_prefix.mpr hp⟩

/-- Claim C12: an emoji is in the result of `getFilteredEmojis` exactly when it is
an entry of `CommonEmojis` and its lower-cased keyword string (empty without a
keyword entry) contains the lower-cased search text as a contiguous block; two
search texts with the same lower-case form give the same result. -/
theorem mem_getFilteredEmojis_iff {Hidden : Type} (ext : External) (m : FormModel Hidden)
    (e : String) :
    (e ∈ m.getFilteredEmojis ext ↔
        e ∈ ext.CommonEmojis ∧
          List.IsInfix (ToLower ext m.emojiSearch).data
            (ToLower ext (ext.EmojiKeywords e)).data) ∧
      (∀ m2 : FormModel Hidden, ToLower ext m2.emojiSearch = ToLower ext m.emojiSearch →
        m2.getFilteredEmojis ext = m.getFilteredEmojis ext) := by
  constructor
  · unfold FormModel.getFilteredEmojis
    simp only []
    by_cases hs : ToLower ext m.emojiSearch = ""
    · simp only [hs, if_true]
      constructor
      · intro he
        exact ⟨he, List.nil_infix⟩
      · exact fun h => h.1
    · simp only [hs, if_false, filterLoop_eq_filter, List.mem_filter, Contains_iff_isInfix]
  · intro m2 h2
    unfold FormModel.getFilteredEmojis
    simp only [h2]

/-- Witness of C12: the searches "FACE" and "face" both select the one emoji whose
keywords contain "face". -/
theorem mem_getFilteredEmojis_iff_witness :
    ("😀" ∈ (sampleForm "FACE" (-1) 0).getFilteredEmojis sampleExternal ↔
        "😀" ∈ sampleExternal.CommonEmojis ∧
          List.IsInfix (ToLower sampleExternal (sampleForm "FACE" (-1) 0).emojiSearch).data
            (ToLower sampleExternal (sampleExternal.EmojiKeywords "😀")).data) ∧
      (sampleForm "face" (-1) 0).getFilteredEmojis sampleExternal
        = (sampleForm "FACE" (-1) 0).getFilteredEmojis sampleExternal ∧
      (sampleForm "FACE" (-1) 0).getFilteredEmojis sampleExternal = ["😀"] :=
  ⟨(mem_getFilteredEmojis_iff sampleExternal (sampleForm "FACE" (-1) 0) "😀").1,
   (mem_getFilteredEmojis_iff sampleExternal (sampleForm "FACE" (-1) 0) "😀").2
     (sampleForm "face" (-1) 0) (by decide),
   by decide⟩

/-- Claim C13: in list mode with an empty habit list the edit key and the delete
key (a key of the Edit or Delete binding that is not a key of the Up, Down or Add
binding, which `handleKey` tests first) return the input state and no command;
whenever such a key leaves list mode, the habit list is not empty; and with a
non-empty list the delete key does enter confirm-delete mode. -/
theorem handleKey_edit_delete_empty_list {Hidden : Type} (ops : FormOps Hidden)
    (m : Model Hidden) (key : KeyMsg) (hmode : m.mode = modeList)
    (hup : Matches key m.keys.Up = false) (hdown : Matches key m.keys.Down = false)
    (hadd : Matches key m.keys.Add = false)
    (hkey : Matches key m.keys.Edit = true ∨ Matches key m.keys.Delete = true) :
    (m.habits = [] → m.handleKey ops key = some (m, none)) ∧
      (∀ m1 cmd, m.handleKey ops key = some (m1, cmd) → m1.mode ≠ modeList → m.habits ≠ []) ∧
      (m.habits ≠ [] → Matches key m.keys.Edit = false →
        m.handleKey ops key = some ({ m with mode := modeConfirmDelete }, none)) := by
  have hempty : m.habits = [] → m.handleKey ops key = some (m, none) := by
    intro hnil
    unfold Model.handleKey
    rw [hmode]
    rcases hkey with hk | hk
    · simp [hup, hdown, hadd, hk, hnil]
    · by_cases he : Matches key m.keys.Edit = true
      · simp [hup, hdown, hadd, he, hnil]
      · simp [hup, hdown, hadd, he, hk, hnil]
  refine ⟨hempty, ?_, ?_⟩
  · intro m1 cmd hres hm1 hnil
    rw [hempty hnil] at hres
    simp only [Option.some.injEq, Prod.mk.injEq] at hres
    exact hm1 (hres.1 ▸ hmode)
  · intro hne hedit
    have hdel : Matches key m.keys.Delete = true := by
      rcases hkey with hk | hk
      · rw [hedit] at hk
        exact absurd hk (by decide)
      · exact hk
    have hlen : m.habits.length > 0 := List.length_pos.mpr hne
    unfold Model.handleKey
    rw [hmode]
    simp [hup, hdown, hadd, hedit, hdel, hlen]

/-- Witness of C13: the key "e" on the empty list. -/
theorem handleKey_edit_delete_empty_list_witness :
    (sampleModel [] [] 0 modeList).habits = [] ∧
      (sampleModel [] [] 0 modeList).handleKey sampleFormOps "e"
        = some (sampleModel [] [] 0 modeList, none) :=
  ⟨by decide,
   (handleKey_edit_delete_empty_list sampleFormOps (sampleModel [] [] 0 modeList) "e"
     (by decide) (by decide) (by decide) (by decide) (by decide)).1 (by decide)⟩

/-- Claim C14: in form mode with an active form, when the form reports cancelled
after it handled the key, `Update` returns list mode, no form and no command,
whatever the submitted flag is; habits, categories, cursor and error stay. -/
theorem Update_key_cancelled {Hidden : Type} (ops : FormOps Hidden) (m : Model Hidden)
    (form : FormModel Hidden) (key : KeyMsg) (hmode : m.mode = modeForm)
    (hform : m.form = some form) (hcancel : (ops.Update form key).1.cancelled = true) :
    m.Update ops (Msg.KeyMsg key) = some ({ m with mode := modeList, form := none }, none) := by
  unfold Model.Update
  simp [hmode, hform, hcancel]

/-- Witness of C14: the form has both flags set after the key. -/
theorem Update_key_cancelled_witness :
    (sampleFormOps.Update cancelledForm "esc").1.cancelled = true ∧
      (sampleFormOps.Update cancelledForm "esc").1.submitted = true ∧
      ({ sampleModel [habitRead] [] 0 modeForm with form := some cancelledForm }).Update
          sampleFormOps (Msg.KeyMsg "esc")
        = some (sampleModel [habitRead] [] 0 modeList, none) :=
  ⟨by decide, by decide,
   Update_key_cancelled sampleFormOps
     { sampleModel [habitRead] [] 0 modeForm with form := some cancelledForm }
     cancelledForm "esc" (by decide) (by decide) (by decide)⟩

/-- Claim C15: `formatFrequency` gives "(daily)" for the daily type, "(weekly)" for
the weekly type, "(" then the decimal rendering of the frequency value then
"x/week)" for the times-per-week type, and the empty string for any other type. -/
theorem formatFrequency_cases (h : Habit) :
    (h.FrequencyType = FreqDaily → formatFrequency h = "(daily)") ∧
      (h.FrequencyType = FreqWeekly → formatFrequency h = "(weekly)") ∧
      (h.FrequencyType = FreqTimesPerWeek →
        formatFrequency h = "(" ++ toString h.FrequencyValue ++ "x/week)") ∧
      (h.FrequencyType ≠ FreqDaily → h.FrequencyType ≠ FreqWeekly →
        h.FrequencyType ≠ FreqTimesPerWeek → formatFrequency h = "") := by
  unfold formatFrequency
  refine ⟨?_, ?_, ?_, ?_⟩
  · intro hd
    simp [hd]
  · intro hw
    have : ¬ FreqWeekly = FreqDaily := by decide
    simp [hw, this]
  · intro ht
    have h1 : ¬ FreqTimesPerWeek = FreqDaily := by decide
    have h2 : ¬ FreqTimesPerWeek = FreqWeekly := by decide
    simp [ht, h1, h2]
  · intro h1 h2 h3
    simp [h1, h2, h3]

/-- Witness of C15: three times per week is rendered as "(3x/week)". -/
theorem formatFrequency_cases_witness :
    habitGym.FrequencyType = FreqTimesPerWeek ∧
      formatFrequency habitGym = "(" ++ toString habitGym.FrequencyValue ++ "x/week)" ∧
      formatFrequency habitGym = "(3x/week)" ∧
      formatFrequency { habitGym with FrequencyValue := -12 } = "(-12x/week)" ∧
      formatFrequency { habitGym with FrequencyType := "monthly" } = "" :=
  ⟨by decide, (formatFrequency_cases habitGym).2.2.1 (by decide), by decide, by decide,
   by decide⟩

/-! ## view.go: the separators of the renderer -/

/-- One iteration of the loop over the categories draws the group of the category,
when it has one, with a separator before it unless it is the first group. -/
theorem renderCategory_eq {Hidden : Type} (m : Model Hidden)
    (categoryMap : Int → Option categoryGroup) (habits : List Habit)
    (hmap : ∀ k : Int, (categoryMap k).map categoryGroup.habits
      = if habitsOfCategory k habits = [] then none else some (habitsOfCategory k habits))
    (st : RenderState) (cat : Category) :
    renderCategory m categoryMap st cat
      = match categoryGroupOf habits cat with
        | none => st
        | some g =>
          { s := st.s ++ ((if st.firstCategory then [] else [separator])
                ++ g.1 :: groupLines m g.2 st.currentIndex),
            currentIndex := st.currentIndex + (g.2.length : Int),
            firstCategory := false } := by
  have hk := hmap cat.ID
  unfold renderCategory categoryGroupOf
  cases hc : categoryMap cat.ID with
  | none =>
    rw [hc] at hk
    by_cases he : habitsOfCategory cat.ID habits = []
    · simp [he]
    · simp [he] at hk
  | some group =>
    rw [hc] at hk
    by_cases he : habitsOfCategory cat.ID habits = []
    · simp [he] at hk
    · simp only [he, if_false, Option.map_some', Option.some.injEq] at hk
      simp only [he, if_false, renderGroupHabits_eq, hk, categoryHeader]
      cases hf : st.firstCategory <;> simp

/-- The loop over the categories draws the groups of the loaded categories. -/
theorem foldl_renderCategory_eq {Hidden : Type} (m : Model Hidden)
    (categoryMap : Int → Option categoryGroup) (habits : List Habit)
    (hmap : ∀ k : Int, (categoryMap k).map categoryGroup.habits
      = if habitsOfCategory k habits = [] then none else some (habitsOfCategory k habits))
    (categories : List Category) (st : RenderState) :
    categories.foldl (renderCategory m categoryMap) st
      = { s := st.s ++ groupsText m (categories.filterMap (categoryGroupOf habits))
                st.currentIndex st.firstCategory,
          currentIndex := st.currentIndex
            + groupsSize (categories.filterMap (categoryGroupOf habits)),
          firstCategory := st.firstCategory
            && (categories.filterMap (categoryGroupOf habits)).isEmpty } := by
  induction categories generalizing st with
  | nil => cases st; simp [groupsText, groupsSize]
  | cons cat rest ih =>
    rw [List.foldl_cons, ih, renderCategory_eq m categoryMap habits hmap]
    cases hg : categoryGroupOf habits cat with
    | none => simp [List.filterMap_cons, hg]
    | some g =>
      obtain ⟨header, hs⟩ := g
      simp only [List.filterMap_cons, hg, groupsText, groupsSize, List.append_assoc,
        List.isEmpty_cons, Bool.and_false, Bool.false_and, RenderState.mk.injEq, and_true]
      constructor
      · simp
      · omega

/-- The text of two sequences of groups one after the other. -/
theorem groupsText_append {Hidden : Type} (m : Model Hidden) (a b : List (Line × List Habit))
    (start : Int) ( first : Bool) :
    groupsText m (a ++ b) start first
      = groupsText m a start first
        ++ groupsText m b (start + groupsSize a) (first && a.isEmpty) := by
  induction a generalizing start first with
  | nil => simp [groupsText, groupsSize]
  | cons g rest ih =>
    obtain ⟨header, hs⟩ := g
    have harith : start + (hs.length : Int) + groupsSize rest
        = start + ((hs.length : Int) + groupsSize rest) := by omega
    have hrest := ih (start + (hs.length : Int)) false
    rw [harith] at hrest
    simp only [Bool.false_and] at hrest
    show groupsText m ((header, hs) :: (rest ++ b)) start first = _
    simp only [groupsText, groupsSize, hrest, List.append_assoc, List.isEmpty_cons,
      Bool.and_false, List.cons_append]

/-- The number of separator lines in the text of a sequence of groups none of whose
headers is the separator: one per group, except for the first group drawn. -/
theorem count_separator_groupsText {Hidden : Type} (m : Model Hidden)
    (gs : List (Line × List Habit)) (hh : ∀ g ∈ gs, g.1 ≠ separator) (start : Int)
    ( first : Bool) :
    (groupsText m gs start first).count separator
      = if first then gs.length - 1 else gs.length := by
  have hlines : ∀ (hs : List Habit) (k : Int), (groupLines m hs k).count separator = 0 := by
    intro hs
    induction hs with
    | nil => intro k; rfl
    | cons h t ih =>
      intro k
      simp only [groupLines]
      rw [List.count_cons_of_ne (by simp [separator]), ih]
  induction gs generalizing start first with
  | nil => cases first <;> rfl
  | cons g rest ih =>
    obtain ⟨header, hs⟩ := g
    have hhead : header ≠ separator := hh (header, hs) (List.mem_cons_self _ _)
    have hrest := ih (fun g hg => hh g (List.mem_cons_of_mem _ hg))
      (start + (hs.length : Int)) false
    simp only [if_false, Bool.false_eq_true] at hrest
    simp only [groupsText, List.count_append, hrest, List.length_cons]
    rw [List.count_cons_of_ne hhead.symm, hlines]
    cases first
    · simp only [Bool.false_eq_true, if_false, List.count_singleton_self]
      omega
    · simp only [if_true, List.count_nil]
      omega

/-- No header of a rendered group is the separator line. -/
theorem renderedGroups_header_ne_separator (habits : List Habit) (categories : List Category) :
    ∀ g ∈ renderedGroups habits categories, g.1 ≠ separator := by
  intro g hg
  unfold renderedGroups at hg
  rcases List.mem_append.mp hg with h | h
  · obtain ⟨c, _, hc⟩ := List.mem_filterMap.mp h
    unfold categoryGroupOf at hc
    by_cases he : habitsOfCategory c.ID habits = []
    · simp [he] at hc
    · simp only [he, if_false, Option.some.injEq] at hc
      rw [← hc]
      simp [categoryHeader, separator]
  · by_cases he : habitsWithoutCategory habits = []
    · simp [he] at h
    · simp only [he, if_false, List.mem_singleton] at h
      rw [h]
      simp [separator]

/-- For a non-empty habit list the text of `renderListContent` is the text of the
rendered groups followed by the empty line and the help line. -/
theorem renderListContent_eq_groupsText {Hidden : Type} (m : Model Hidden)
    (hne : m.habits ≠ []) :
    m.renderListContent
      = groupsText m (renderedGroups m.habits m.categories) 0 true
        ++ [Line.plain "", Line.muted "a: add  e: edit  d: delete"] := by
  obtain ⟨hu, hmap⟩ := groupHabits_GroupsOf m.habits
  have hlen : ¬ m.habits.length = 0 := fun h => hne (List.length_eq_zero.mp h)
  unfold Model.renderListContent
  simp only [hlen, if_false]
  rw [foldl_renderCategory_eq m _ m.habits hmap, hu]
  unfold renderedGroups
  rw [groupsText_append]
  simp only [List.nil_append, Bool.true_and, zero_add]
  by_cases he : habitsWithoutCategory m.habits = []
  · simp [he, groupsText]
  · have hpos : (habitsWithoutCategory m.habits).length > 0 := List.length_pos.mpr he
    simp only [hpos, if_true, he, if_false, renderGroupHabits_eq, groupsText]
    cases hf : (List.filterMap (categoryGroupOf m.habits) m.categories).isEmpty <;> simp

/-- Claim C16: for a non-empty habit list that renders `g ≥ 1` groups (one per
loaded category with at least one habit, and "Uncategorized" when some habit has
no category), the text of `renderListContent` is the text of these groups, which
has a separator line immediately before the header of every group but the first,
followed by the empty line and the help line; it has exactly `g - 1` separator
lines and begins with the header of the first group. -/
theorem renderListContent_separators {Hidden : Type} (m : Model Hidden)
    (hne : m.habits ≠ []) (hg : 1 ≤ (renderedGroups m.habits m.categories).length) :
    m.renderListContent
        = groupsText m (renderedGroups m.habits m.categories) 0 true
          ++ [Line.plain "", Line.muted "a: add  e: edit  d: delete"] ∧
      m.renderListContent.count separator + 1 = (renderedGroups m.habits m.categories).length ∧
      m.renderListContent.head? = (renderedGroups m.habits m.categories).head?.map Prod.fst := by
  have htext := renderListContent_eq_groupsText m hne
  refine ⟨htext, ?_, ?_⟩
  · rw [htext, List.count_append,
      count_separator_groupsText m _ (renderedGroups_header_ne_separator m.habits m.categories)]
    have hfoot : List.count separator
        [Line.plain "", Line.muted "a: add  e: edit  d: delete"] = 0 := by decide
    rw [hfoot]
    simp only [if_true]
    omega
  · rw [htext]
    cases hgs : renderedGroups m.habits m.categories with
    | nil => simp [hgs] at hg
    | cons g rest =>
      obtain ⟨header, hs⟩ := g
      simp [groupsText]

/-- Witness of C16: three groups (Work, Health, Uncategorized) are drawn with two
separators; the single group "Uncategorized" of the habit "Read" is drawn with no
separator. -/
theorem renderListContent_separators_witness :
    ((sampleModel [habitRun, habitReview, habitRead] [catWork, catHealth] 0 modeList).renderListContent
        = groupsText (sampleModel [habitRun, habitReview, habitRead] [catWork, catHealth] 0 modeList)
            (renderedGroups
              (sampleModel [habitRun, habitReview, habitRead] [catWork, catHealth] 0 modeList).habits
              (sampleModel [habitRun, habitReview, habitRead] [catWork, catHealth] 0
                modeList).categories) 0 true
          ++ [Line.plain "", Line.muted "a: add  e: edit  d: delete"] ∧
      (sampleModel [habitRun, habitReview, habitRead] [catWork, catHealth] 0
          modeList).renderListContent.count separator + 1
        = (renderedGroups
            (sampleModel [habitRun, habitReview, habitRead] [catWork, catHealth] 0 modeList).habits
            (sampleModel [habitRun, habitReview, habitRead] [catWork, catHealth] 0
              modeList).categories).length ∧
      (sampleModel [habitRun, habitReview, habitRead] [catWork, catHealth] 0
          modeList).renderListContent.head?
        = (renderedGroups
            (sampleModel [habitRun, habitReview, habitRead] [catWork, catHealth] 0 modeList).habits
            (sampleModel [habitRun, habitReview, habitRead] [catWork, catHealth] 0
              modeList).categories).head?.map Prod.fst) ∧
      (sampleModel [habitRun, habitReview, habitRead] [catWork, catHealth] 0
          modeList).renderListContent.count separator = 2 ∧
      (sampleModel [habitRead] [] 0 modeList).renderListContent
        = [Line.muted "Uncategorized",
           Line.habit habitRead 0
             { cursor := "> ", habitEmoji := "", name := "Read", selected := true,
               freq := "(daily)" },
           Line.plain "", Line.muted "a: add  e: edit  d: delete"] :=
  ⟨renderListContent_separators
     (sampleModel [habitRun, habitReview, habitRead] [catWork, catHealth] 0 modeList)
     (by decide) (by decide),
   by decide, by decide⟩

/-! ## view.go: the error slot -/

/-- Indexing a slice inside its bounds gives an element. -/
theorem index_isSome {α : Type} (xs : List α) (i : Int) (h0 : 0 ≤ i)
    (h1 : i < (xs.length : Int)) : ∃ x, index xs i = some x := by
  unfold index
  have hlt : i.toNat < xs.length := by omega
  exact ⟨xs[i.toNat], by simp [h0, h1, List.getElem?_eq_getElem hlt]⟩

/-- The key handler `handleKey` never assigns the error slot. -/
theorem handleKey_err {Hidden : Type} (ops : FormOps Hidden) (m m1 : Model Hidden)
    (key : KeyMsg) (cmd : Option Cmd) (h : m.handleKey ops key = some (m1, cmd)) :
    m1.err = m.err := by
  unfold Model.handleKey at h
  repeat' split at h
  all_goals
    first
    | (simp only [Option.some.injEq, Prod.mk.injEq] at h
       obtain ⟨rfl, _⟩ := h
       rfl)
    | simp at h

/-- The key handler `handleKey` returns when the habit list is empty or the cursor
is an index into it. -/
theorem handleKey_isSome {Hidden : Type} (ops : FormOps Hidden) (m : Model Hidden)
    (key : KeyMsg)
    (hc : m.habits = [] ∨ (0 ≤ m.cursor ∧ m.cursor < (m.habits.length : Int))) :
    ∃ m1 cmd, m.handleKey ops key = some (m1, cmd) := by
  have hidx : m.habits.length > 0 → ∃ habit, index m.habits m.cursor = some habit := by
    intro hpos
    rcases hc with hnil | ⟨h0, h1⟩
    · simp [hnil] at hpos
    · exact index_isSome m.habits m.cursor h0 h1
  unfold Model.handleKey
  repeat' split
  all_goals
    first
    | exact ⟨_, _, rfl⟩
    | (rename_i hpos _ hnone
       obtain ⟨habit, hh⟩ := hidx hpos
       rw [hh] at hnone
       exact absurd hnone (by simp))

/-- Claim C17: in a state whose error slot is set, every state that `Update`
returns has the error slot set, for every message (`Update` does return for every
message that is not a key, and for every key when the habit list is empty or the
cursor is an index into it); and `View` and `ViewContent` return the single error
line, whatever the mode, the habit list and the form are. -/
theorem error_slot_persists {Hidden : Type} (ops : FormOps Hidden) (views : FormViews Hidden)
    (m : Model Hidden) (msg : Msg) (e : String) (herr : m.err = some e) :
    (∀ m1 cmd, m.Update ops msg = some (m1, cmd) → m1.err ≠ none) ∧
      (((∀ key, msg ≠ Msg.KeyMsg key) ∨ m.habits = [] ∨
          (0 ≤ m.cursor ∧ m.cursor < (m.habits.length : Int))) →
        ∃ m1 cmd, m.Update ops msg = some (m1, cmd)) ∧
      m.View views = some [errorLine e] ∧
      m.ViewContent views = some [errorLine e] := by
  refine ⟨?_, ?_, ?_, ?_⟩
  · intro m1 cmd h
    cases msg with
    | HabitsLoadedMsg habits categories err =>
      cases err <;>
        (simp only [Model.Update, Option.some.injEq, Prod.mk.injEq] at h
         obtain ⟨rfl, _⟩ := h
         simp [herr])
    | HabitSavedMsg habit err =>
      cases err <;>
        (simp only [Model.Update, Option.some.injEq, Prod.mk.injEq] at h
         obtain ⟨rfl, _⟩ := h
         simp [herr])
    | HabitDeletedMsg err =>
      cases err <;>
        (simp only [Model.Update, Option.some.injEq, Prod.mk.injEq] at h
         obtain ⟨rfl, _⟩ := h
         simp [herr])
    | WindowSizeMsg width height =>
      simp only [Model.Update, Option.some.injEq, Prod.mk.injEq] at h
      obtain ⟨rfl, _⟩ := h
      simp [herr]
    | other =>
      simp only [Model.Update, Option.some.injEq, Prod.mk.injEq] at h
      obtain ⟨rfl, _⟩ := h
      simp [herr]
    | KeyMsg key =>
      unfold Model.Update at h
      simp only at h
      split at h
      · split at h
        · simp only [Option.some.injEq, Prod.mk.injEq] at h
          obtain ⟨rfl, _⟩ := h
          simp [herr]
        · split at h <;>
            (simp only [Option.some.injEq, Prod.mk.injEq] at h
             obtain ⟨rfl, _⟩ := h
             simp [herr])
      · rw [handleKey_err ops m m1 key cmd h, herr]
        simp
  · intro hc
    cases msg with
    | HabitsLoadedMsg habits categories err => cases err <;> exact ⟨_, _, rfl⟩
    | HabitSavedMsg habit err => cases err <;> exact ⟨_, _, rfl⟩
    | HabitDeletedMsg err => cases err <;> exact ⟨_, _, rfl⟩
    | WindowSizeMsg width height => exact ⟨_, _, rfl⟩
    | other => exact ⟨_, _, rfl⟩
    | KeyMsg key =>
      have hc2 : m.habits = [] ∨ (0 ≤ m.cursor ∧ m.cursor < (m.habits.length : Int)) := by
        rcases hc with h | h
        · exact absurd rfl (h key)
        · exact h
      unfold Model.Update
      simp only
      split
      · split
        · exact ⟨_, _, rfl⟩
        · split <;> exact ⟨_, _, rfl⟩
      · exact handleKey_isSome ops m key hc2
  · unfold Model.View
    simp [herr]
  · unfold Model.ViewContent
    simp [herr]

/-- Witness of C17: an error is stored in confirm-delete mode with a cursor outside
of the habit list; a successful reload leaves the error in place, and both views
are the error line. -/
theorem error_slot_persists_witness :
    ({ sampleModel [habitRead] [] 3 modeConfirmDelete with err := some "disk full" }).err
        = some "disk full" ∧
      ({ sampleModel [habitRead] [] 3 modeConfirmDelete with err := some "disk full" }).Update
          sampleFormOps (Msg.HabitsLoadedMsg [habitRead, habitRun] [catHealth] none)
        = some ({ sampleModel [habitRead, habitRun] [catHealth] 3 modeConfirmDelete with
                  err := some "disk full" }, none) ∧
      ({ sampleModel [habitRead] [] 3 modeConfirmDelete with err := some "disk full" }).View
          sampleFormViews = some [errorLine "disk full"] ∧
      ({ sampleModel [habitRead] [] 3 modeConfirmDelete with
          err := some "disk full" }).ViewContent sampleFormViews
        = some [errorLine "disk full"] :=
  ⟨by decide, by decide,
   (error_slot_persists sampleFormOps sampleFormViews
     { sampleModel [habitRead] [] 3 modeConfirmDelete with err := some "disk full" }
     (Msg.HabitsLoadedMsg [habitRead, habitRun] [catHealth] none) "disk full" (by decide)).2.2⟩

/-! ## emoji.go: the scroll window moves only when it has to -/

/-- The call `ensureVisibleEmoji` assigns no field but `scrollOffset`. -/
theorem ensureVisibleEmoji_frame {Hidden : Type} (ext : External) (m : FormModel Hidden) :
    m.ensureVisibleEmoji ext
      = { m with scrollOffset := (m.ensureVisibleEmoji ext).scrollOffset } := by
  unfold FormModel.ensureVisibleEmoji
  simp only []
  split_ifs <;> rfl

/-- The filtered list does not depend on the scroll offset. -/
theorem getFilteredEmojis_scrollOffset {Hidden : Type} (ext : External) (m : FormModel Hidden)
    (s : Int) : ({ m with scrollOffset := s }).getFilteredEmojis ext = m.getFilteredEmojis ext :=
  rfl

/-- What holds of the scroll offset after `ensureVisibleEmoji`, past the two early
returns: it is inside its range, it is 0 when the selected row is above it, and
it is the maximum when the selected row is below the window. -/
theorem ensureVisibleEmoji_settled {Hidden : Type} (ext : External) (m : FormModel Hidden)
    (hidx : m.emojiIndex ≠ -1) (hlen : (m.getFilteredEmojis ext).length ≠ 0) :
    0 ≤ (m.ensureVisibleEmoji ext).scrollOffset ∧
      (m.ensureVisibleEmoji ext).scrollOffset
        ≤ max 0 (totalRows ((m.getFilteredEmojis ext).length : Int) - 8) ∧
      (goDiv m.emojiIndex 8 < (m.ensureVisibleEmoji ext).scrollOffset →
        (m.ensureVisibleEmoji ext).scrollOffset = 0) ∧
      (goDiv m.emojiIndex 8 ≥ (m.ensureVisibleEmoji ext).scrollOffset + 8 →
        (m.ensureVisibleEmoji ext).scrollOffset
          = max 0 (totalRows ((m.getFilteredEmojis ext).length : Int) - 8)) := by
  rw [ensureVisibleEmoji_scrollOffset ext m hidx hlen]
  generalize goDiv m.emojiIndex 8 = row
  generalize totalRows ((m.getFilteredEmojis ext).length : Int) = total
  simp only []
  refine ⟨?_, ?_, ?_, ?_⟩
  · split_ifs <;> omega
  · split_ifs <;> omega
  · split_ifs <;> omega
  · split_ifs <;> omega

/-- A scroll offset with the properties of `ensureVisibleEmoji_settled` is left as
it is by `ensureVisibleEmoji`. -/
theorem ensureVisibleEmoji_of_settled {Hidden : Type} (ext : External) (m : FormModel Hidden)
    (hidx : m.emojiIndex ≠ -1) (hlen : (m.getFilteredEmojis ext).length ≠ 0)
    (h0 : 0 ≤ m.scrollOffset)
    (h1 : m.scrollOffset ≤ max 0 (totalRows ((m.getFilteredEmojis ext).length : Int) - 8))
    (h2 : goDiv m.emojiIndex 8 < m.scrollOffset → m.scrollOffset = 0)
    (h3 : goDiv m.emojiIndex 8 ≥ m.scrollOffset + 8 →
      m.scrollOffset = max 0 (totalRows ((m.getFilteredEmojis ext).length : Int) - 8)) :
    (m.ensureVisibleEmoji ext).scrollOffset = m.scrollOffset := by
  rw [ensureVisibleEmoji_scrollOffset ext m hidx hlen]
  revert h1 h2 h3
  generalize goDiv m.emojiIndex 8 = row
  generalize totalRows ((m.getFilteredEmojis ext).length : Int) = total
  intro h1 h2 h3
  simp only []
  split_ifs <;> omega

/-- Calling `ensureVisibleEmoji` twice gives the state of calling it once. -/
theorem ensureVisibleEmoji_idem {Hidden : Type} (ext : External) (m : FormModel Hidden) :
    (m.ensureVisibleEmoji ext).ensureVisibleEmoji ext = m.ensureVisibleEmoji ext := by
  by_cases hidx : m.emojiIndex = -1
  · have h1 : m.ensureVisibleEmoji ext = { m with scrollOffset := 0 } := by
      unfold FormModel.ensureVisibleEmoji
      simp [hidx]
    rw [h1]
    unfold FormModel.ensureVisibleEmoji
    simp [hidx]
  · by_cases hlen : (m.getFilteredEmojis ext).length = 0
    · have h1 : m.ensureVisibleEmoji ext = m := by
        unfold FormModel.ensureVisibleEmoji
        simp [hidx, hlen]
      rw [h1, h1]
    · have hframe := ensureVisibleEmoji_frame ext m
      have hidx1 : (m.ensureVisibleEmoji ext).emojiIndex = m.emojiIndex := by
        rw [hframe]
      have hfil : (m.ensureVisibleEmoji ext).getFilteredEmojis ext = m.getFilteredEmojis ext := by
        rw [hframe]
        rfl
      obtain ⟨s0, s1, s2, s3⟩ := ensureVisibleEmoji_settled ext m hidx hlen
      have hfix := ensureVisibleEmoji_of_settled ext (m.ensureVisibleEmoji ext)
        (by rw [hidx1]; exact hidx) (by rw [hfil]; exact hlen) s0 (by rw [hfil]; exact s1)
        (by rw [hidx1]; exact s2) (by rw [hidx1, hfil]; exact s3)
      rw [ensureVisibleEmoji_frame ext (m.ensureVisibleEmoji ext), hfix]

/-- Claim C19: `ensureVisibleEmoji` leaves the scroll offset as it is when the
selection is a valid index, the offset is inside `[0, max 0 (totalRows - 8)]` and
the selected row is inside the window; in every state it changes no field but
`scrollOffset`, so `emojiIndex` and the search text stay; and calling it twice
gives the state of calling it once. -/
theorem ensureVisibleEmoji_minimal {Hidden : Type} (ext : External) (m : FormModel Hidden) :
    (0 ≤ m.emojiIndex → m.emojiIndex < ((m.getFilteredEmojis ext).length : Int) →
        0 ≤ m.scrollOffset →
        m.scrollOffset ≤ max 0 (totalRows ((m.getFilteredEmojis ext).length : Int) - 8) →
        m.scrollOffset ≤ m.emojiIndex / 8 → m.emojiIndex / 8 < m.scrollOffset + 8 →
        m.ensureVisibleEmoji ext = m) ∧
      m.ensureVisibleEmoji ext
        = { m with scrollOffset := (m.ensureVisibleEmoji ext).scrollOffset } ∧
      (m.ensureVisibleEmoji ext).emojiIndex = m.emojiIndex ∧
      (m.ensureVisibleEmoji ext).emojiSearch = m.emojiSearch ∧
      (m.ensureVisibleEmoji ext).ensureVisibleEmoji ext = m.ensureVisibleEmoji ext := by
  have hframe := ensureVisibleEmoji_frame ext m
  refine ⟨?_, hframe, by rw [hframe], by rw [hframe], ensureVisibleEmoji_idem ext m⟩
  intro h0 h1 hs0 hs1 hr0 hr1
  have hrow : goDiv m.emojiIndex 8 = m.emojiIndex / 8 := goDiv_eight_of_nonneg _ h0
  have hfix := ensureVisibleEmoji_of_settled ext m (by omega) (by omega) hs0 hs1
    (by rw [hrow]; omega) (by rw [hrow]; omega)
  rw [hframe, hfix]

/-- Witness of C19: three emojis, the last one selected, the offset 0. -/
theorem ensureVisibleEmoji_minimal_witness :
    (sampleForm "" 2 0).ensureVisibleEmoji sampleExternal = sampleForm "" 2 0 ∧
      ((sampleForm "" 2 40).ensureVisibleEmoji sampleExternal).ensureVisibleEmoji sampleExternal
        = (sampleForm "" 2 40).ensureVisibleEmoji sampleExternal ∧
      (sampleForm "" 2 40).ensureVisibleEmoji sampleExternal = sampleForm "" 2 0 :=
  ⟨(ensureVisibleEmoji_minimal sampleExternal (sampleForm "" 2 0)).1
     (by decide) (by decide) (by decide) (by decide) (by decide) (by decide),
   (ensureVisibleEmoji_minimal sampleExternal (sampleForm "" 2 40)).2.2.2.2,
   by decide⟩

/-! ## emoji.go: the emoji picker modal -/

/-- The values of a loop counter are the integers from `a` up to `a + n`. -/
theorem mem_upFrom (a : Int) (n : Nat) (x : Int) :
    x ∈ upFrom a n ↔ a ≤ x ∧ x < a + (n : Int) := by
  induction n generalizing a with
  | zero => simp [upFrom]
  | succ n ih =>
    simp only [upFrom, List.mem_cons, ih]
    push_cast
    omega

/-- The value of a loop counter in iteration `j`. -/
theorem getElem?_upFrom (a : Int) (n j : Nat) :
    (upFrom a n)[j]? = if j < n then some (a + (j : Int)) else none := by
  induction n generalizing a j with
  | zero => simp [upFrom]
  | succ n ih =>
    cases j with
    | zero => simp [upFrom]
    | succ j =>
      simp only [upFrom, List.getElem?_cons_succ, ih, Nat.succ_lt_succ_iff]
      split_ifs
      · congr 1
        push_cast
        omega
      · rfl

/-- Adding a constant to the values of a loop counter. -/
theorem map_add_upFrom (a b : Int) (n : Nat) :
    (upFrom a n).map (fun x => b + x) = upFrom (b + a) n := by
  induction n generalizing a with
  | zero => rfl
  | succ n ih =>
    simp only [upFrom, List.map_cons, ih]
    congr 2
    omega

/-- The values of a loop counter up to the first one that reaches `c`. -/
theorem takeWhile_upFrom (a c : Int) (n : Nat) :
    (upFrom a n).takeWhile (fun x => decide (x < c)) = upFrom a (min n (c - a).toNat) := by
  induction n generalizing a with
  | zero => simp [upFrom]
  | succ n ih =>
    simp only [upFrom, List.takeWhile_cons]
    by_cases hlt : a < c
    · have hmin : min (n + 1) (c - a).toNat = min n (c - (a + 1)).toNat + 1 := by omega
      simp only [hlt, decide_True, if_true, ih, hmin, upFrom]
    · have hmin : min (n + 1) (c - a).toNat = 0 := by omega
      simp only [hlt, decide_False, hmin, upFrom]
      rfl

/-- The inner loop of `renderEmojiModalBox` on a row that is not negative, over
columns that are not negative: it draws the cells up to the first column whose
index is beyond the filtered list, and does not panic. -/
theorem renderEmojiRow_eq (filtered : List String) (emojiIndex row : Int) (hrow : 0 ≤ row)
    (cols : List Int) (hcols : ∀ col ∈ cols, 0 ≤ col) :
    renderEmojiRow filtered emojiIndex row cols
      = some ((cols.takeWhile (fun col => decide (col < (filtered.length : Int) - row * 8))).map
          (fun col => emojiCell emojiIndex (row * 8 + col)
            ((index filtered (row * 8 + col)).getD ""))) := by
  induction cols with
  | nil => rfl
  | cons col cols ih =>
    have hcol : 0 ≤ col := hcols col (List.mem_cons_self _ _)
    have ih2 := ih (fun c hc => hcols c (List.mem_cons_of_mem _ hc))
    simp only [renderEmojiRow, emojisPerRow, List.takeWhile_cons]
    by_cases hlt : col < (filtered.length : Int) - row * 8
    · have hge : ¬ row * 8 + col ≥ (filtered.length : Int) := by omega
      obtain ⟨emoji, hemoji⟩ := index_isSome filtered (row * 8 + col) (by omega) (by omega)
      simp only [hge, if_false, hemoji, ih2, hlt, decide_True, if_true, List.map_cons,
        Option.getD_some]
    · have hge : row * 8 + col ≥ (filtered.length : Int) := by omega
      simp only [hge, if_true, hlt, decide_False, List.map_nil]
      rfl

/-- The inner loop of `renderEmojiModalBox` over the eight columns draws the
reference row. -/
theorem renderEmojiRow_eq_gridRow (filtered : List String) (emojiIndex row : Int)
    (hrow : 0 ≤ row) :
    renderEmojiRow filtered emojiIndex row (upFrom 0 emojisPerRow.toNat)
      = some (gridRow filtered emojiIndex row) := by
  rw [renderEmojiRow_eq filtered emojiIndex row hrow _
    (fun col hc => ((mem_upFrom 0 _ col).mp hc).1)]
  rw [takeWhile_upFrom]
  have hshift := map_add_upFrom 0 (row * 8)
    (min emojisPerRow.toNat ((filtered.length : Int) - row * 8 - 0).toNat)
  unfold gridRow
  have h8 : emojisPerRow.toNat = 8 := rfl
  rw [h8] at hshift ⊢
  simp only [sub_zero, add_zero] at hshift ⊢
  rw [← hshift, List.map_map]
  rfl

/-- The outer loop of `renderEmojiModalBox` over rows that are not negative draws
the reference row for each of them, and does not panic. -/
theorem renderEmojiRows_eq (filtered : List String) (emojiIndex : Int) (rows : List Int)
    (hrows : ∀ row ∈ rows, 0 ≤ row) :
    renderEmojiRows filtered emojiIndex rows
      = some (rows.map (fun row => ModalLine.row row (gridRow filtered emojiIndex row))) := by
  induction rows with
  | nil => rfl
  | cons row rows ih =>
    simp only [renderEmojiRows,
      renderEmojiRow_eq_gridRow filtered emojiIndex row (hrows row (List.mem_cons_self _ _)),
      ih (fun r hr => hrows r (List.mem_cons_of_mem _ hr)), List.map_cons]

/-- A cell of the reference row at position `j`: its index is `row * 8 + j`, it
is inside the filtered list, and its emoji is the entry of the list there. -/
theorem gridRow_cell (filtered : List String) (emojiIndex row : Int) (hrow : 0 ≤ row)
    (j : Nat) (c : Cell) (hc : (gridRow filtered emojiIndex row)[j]? = some c) :
    c.idx = row * 8 + (j : Int) ∧ (j : Int) < 8 ∧ c.idx < (filtered.length : Int) ∧
      index filtered c.idx = some c.emoji := by
  unfold gridRow at hc
  rw [List.getElem?_map, getElem?_upFrom] at hc
  by_cases hj : j < min 8 ((filtered.length : Int) - row * 8).toNat
  · simp only [hj, if_true, Option.map_some', Option.some.injEq] at hc
    obtain ⟨emoji, hemoji⟩ := index_isSome filtered (row * 8 + (j : Int)) (by omega) (by omega)
    subst hc
    refine ⟨rfl, by omega, ?_, ?_⟩
    · simp only [emojiCell]
      omega
    · simp only [emojiCell, hemoji, Option.getD_some]
  · simp [hj] at hc

/-- The indices of the cells of the reference row. -/
theorem mem_gridRow_idx (filtered : List String) (emojiIndex row : Int) (i : Int) :
    (∃ c ∈ gridRow filtered emojiIndex row, c.idx = i)
      ↔ row * 8 ≤ i ∧ i < row * 8 + 8 ∧ i < (filtered.length : Int) := by
  unfold gridRow
  constructor
  · rintro ⟨c, hc, rfl⟩
    obtain ⟨idx, hidx, rfl⟩ := List.mem_map.mp hc
    have := (mem_upFrom _ _ idx).mp hidx
    simp only [emojiCell]
    omega
  · intro hi
    refine ⟨emojiCell emojiIndex i ((index filtered i).getD ""), ?_, rfl⟩
    apply List.mem_map.mpr
    exact ⟨i, (mem_upFrom _ _ i).mpr (by omega), rfl⟩

/-- The rows of a text that is put together from parts. -/
theorem modalRows_append (a b : List ModalLine) :
    modalRows (a ++ b) = modalRows a ++ modalRows b := by
  simp [modalRows, List.filterMap_append]

/-- The rows of a sequence of row lines. -/
theorem modalRows_map_row (rows : List Int) (f : Int → List Cell) :
    modalRows (rows.map (fun row => ModalLine.row row (f row)))
      = rows.map (fun row => (row, f row)) := by
  induction rows with
  | nil => rfl
  | cons row rows ih =>
    simp only [List.map_cons, modalRows, List.filterMap_cons] at ih ⊢
    rw [ih]

/-- The text of `renderEmojiModalBox` for a non-empty filtered list and a scroll
offset that is not negative: head, indicator above, the reference rows of the
window, indicator below, foot. The call does not panic. -/
theorem renderEmojiModalBox_eq {Hidden : Type} (ext : External) (m : FormModel Hidden)
    (hlen : (m.getFilteredEmojis ext).length ≠ 0) (h0 : 0 ≤ m.scrollOffset) :
    m.renderEmojiModalBox ext
      = some (modalHead m
          ++ ((if m.scrollOffset > 0 then [moreAbove] else [])
            ++ (upFrom m.scrollOffset
                  (min (m.scrollOffset + 8)
                      (totalRows ((m.getFilteredEmojis ext).length : Int))
                    - m.scrollOffset).toNat).map
                (fun row => ModalLine.row row
                  (gridRow (m.getFilteredEmojis ext) m.emojiIndex row))
            ++ (if m.scrollOffset + 8 < totalRows ((m.getFilteredEmojis ext).length : Int)
                then [moreBelow] else []))
          ++ modalFoot) := by
  unfold FormModel.renderEmojiModalBox
  simp only [hlen, if_false, totalRows, emojisPerRow, maxVisibleRows]
  have hend : ∀ total : Int,
      (if m.scrollOffset + 8 > total then total else m.scrollOffset + 8)
        = min (m.scrollOffset + 8) total := by
    intro total
    split_ifs <;> omega
  rw [hend]
  rw [renderEmojiRows_eq _ _ _ (fun row hr => by
    have := (mem_upFrom _ _ row).mp hr
    omega)]
  have hbelow : ∀ total : Int,
      (min (m.scrollOffset + 8) total < total) ↔ (m.scrollOffset + 8 < total) := by
    intro total
    omega
  simp only [hbelow]

/-- Claim C18: for a non-empty filtered list and a scroll offset that is not
negative, in particular one inside `[0, max 0 (totalRows - 8)]`,
`renderEmojiModalBox` returns a text whose grid rows
are the rows `scrollOffset, ..., min (scrollOffset + 8) totalRows - 1`, top to
bottom; the cell at position `j` of row `r` has the index `i = r * 8 + j` (so
`r = i / 8` and `j = i % 8`) and shows the entry `i` of the filtered list; the
indices drawn are exactly those with
`scrollOffset * 8 ≤ i < min (len filtered) ((scrollOffset + 8) * 8)`; the indicator
"more above" is in the text exactly when `scrollOffset > 0`, and "more below"
exactly when `scrollOffset + 8 < totalRows`. -/
theorem renderEmojiModalBox_window {Hidden : Type} (ext : External) (m : FormModel Hidden)
    (hlen : (m.getFilteredEmojis ext).length ≠ 0) (h0 : 0 ≤ m.scrollOffset) :
    ∃ lines : List ModalLine,
      m.renderEmojiModalBox ext = some lines ∧
      (modalRows lines).map Prod.fst
        = upFrom m.scrollOffset
            (min (m.scrollOffset + 8) (totalRows ((m.getFilteredEmojis ext).length : Int))
              - m.scrollOffset).toNat ∧
      (∀ rc ∈ modalRows lines, ∀ (j : Nat) (c : Cell), rc.2[j]? = some c →
        c.idx = rc.1 * 8 + (j : Int) ∧ c.idx / 8 = rc.1 ∧ c.idx % 8 = (j : Int) ∧
          index (m.getFilteredEmojis ext) c.idx = some c.emoji) ∧
      (∀ i : Int, (∃ rc ∈ modalRows lines, ∃ c ∈ rc.2, c.idx = i) ↔
        m.scrollOffset * 8 ≤ i ∧
          i < min ((m.getFilteredEmojis ext).length : Int) ((m.scrollOffset + 8) * 8)) ∧
      (moreAbove ∈ lines ↔ m.scrollOffset > 0) ∧
      (moreBelow ∈ lines ↔
        m.scrollOffset + 8 < totalRows ((m.getFilteredEmojis ext).length : Int)) := by
  have htot : totalRows ((m.getFilteredEmojis ext).length : Int)
      = (((m.getFilteredEmojis ext).length : Int) + 7) / 8 := by
    simp only [totalRows, emojisPerRow]
    rw [goDiv_eight_of_nonneg _ (by omega)]
    omega
  refine ⟨_, renderEmojiModalBox_eq ext m hlen h0, ?_, ?_, ?_, ?_, ?_⟩
  all_goals
    generalize hT : totalRows ((m.getFilteredEmojis ext).length : Int) = total at htot ⊢
  · have hhead : modalRows (modalHead m) = [] := rfl
    have hfoot : modalRows modalFoot = [] := rfl
    simp only [modalRows_append, modalRows_map_row, hhead, hfoot, List.nil_append,
      List.append_nil]
    have ha : modalRows (if m.scrollOffset > 0 then [moreAbove] else []) = [] := by
      split_ifs <;> rfl
    have hb : modalRows (if m.scrollOffset + 8 < total then [moreBelow] else []) = [] := by
      split_ifs <;> rfl
    rw [ha, hb]
    simp [List.map_map, Function.comp_def]
  · have hhead : modalRows (modalHead m) = [] := rfl
    have hfoot : modalRows modalFoot = [] := rfl
    have ha : modalRows (if m.scrollOffset > 0 then [moreAbove] else []) = [] := by
      split_ifs <;> rfl
    have hb : modalRows (if m.scrollOffset + 8 < total then [moreBelow] else []) = [] := by
      split_ifs <;> rfl
    simp only [modalRows_append, modalRows_map_row, hhead, hfoot, ha, hb, List.nil_append,
      List.append_nil]
    intro rc hrc j c hc
    obtain ⟨row, hrow, rfl⟩ := List.mem_map.mp hrc
    have hr := (mem_upFrom _ _ row).mp hrow
    obtain ⟨c1, c2, c3, c4⟩ :=
      gridRow_cell (m.getFilteredEmojis ext) m.emojiIndex row (by omega) j c hc
    refine ⟨c1, ?_, ?_, c4⟩ <;> omega
  · have hhead : modalRows (modalHead m) = [] := rfl
    have hfoot : modalRows modalFoot = [] := rfl
    have ha : modalRows (if m.scrollOffset > 0 then [moreAbove] else []) = [] := by
      split_ifs <;> rfl
    have hb : modalRows (if m.scrollOffset + 8 < total then [moreBelow] else []) = [] := by
      split_ifs <;> rfl
    simp only [modalRows_append, modalRows_map_row, hhead, hfoot, ha, hb, List.nil_append,
      List.append_nil]
    intro i
    constructor
    · rintro ⟨rc, hrc, hcell⟩
      obtain ⟨row, hrow, rfl⟩ := List.mem_map.mp hrc
      have hr := (mem_upFrom _ _ row).mp hrow
      have hi := (mem_gridRow_idx (m.getFilteredEmojis ext) m.emojiIndex row i).mp hcell
      omega
    · intro hi
      refine ⟨(i / 8, gridRow (m.getFilteredEmojis ext) m.emojiIndex (i / 8)), ?_, ?_⟩
      · apply List.mem_map.mpr
        exact ⟨i / 8, (mem_upFrom _ _ _).mpr (by omega), rfl⟩
      · exact (mem_gridRow_idx (m.getFilteredEmojis ext) m.emojiIndex (i / 8) i).mpr
          (by omega)
  · by_cases hpos : m.scrollOffset > 0
    · simp [hpos]
    · simp [hpos, modalHead, modalFoot, moreAbove, moreBelow, uiTitle]
  · by_cases hbel : m.scrollOffset + 8 < total
    · simp [hbel]
    · simp [hbel, modalHead, modalFoot, moreAbove, moreBelow, uiTitle]

/-- Witness of C18: seventy entries (nine rows), scroll offset 1. The rows 1 to 8
are drawn, the last one with the six entries 64 to 69; "more above" is shown and
"more below" is not. -/
theorem renderEmojiModalBox_window_witness :
    ((sampleForm "" 66 1).getFilteredEmojis seventyEmojis).length = 70 ∧
      totalRows (((sampleForm "" 66 1).getFilteredEmojis seventyEmojis).length : Int) = 9 ∧
      (sampleForm "" 66 1).scrollOffset
        ≤ max 0 (totalRows (((sampleForm "" 66 1).getFilteredEmojis seventyEmojis).length : Int)
            - 8) ∧
      (∃ lines : List ModalLine,
        (sampleForm "" 66 1).renderEmojiModalBox seventyEmojis = some lines ∧
        (modalRows lines).map Prod.fst
          = upFrom (sampleForm "" 66 1).scrollOffset
              (min ((sampleForm "" 66 1).scrollOffset + 8)
                  (totalRows
                    (((sampleForm "" 66 1).getFilteredEmojis seventyEmojis).length : Int))
                - (sampleForm "" 66 1).scrollOffset).toNat ∧
        (∀ rc ∈ modalRows lines, ∀ (j : Nat) (c : Cell), rc.2[j]? = some c →
          c.idx = rc.1 * 8 + (j : Int) ∧ c.idx / 8 = rc.1 ∧ c.idx % 8 = (j : Int) ∧
            index ((sampleForm "" 66 1).getFilteredEmojis seventyEmojis) c.idx
              = some c.emoji) ∧
        (∀ i : Int, (∃ rc ∈ modalRows lines, ∃ c ∈ rc.2, c.idx = i) ↔
          (sampleForm "" 66 1).scrollOffset * 8 ≤ i ∧
            i < min (((sampleForm "" 66 1).getFilteredEmojis seventyEmojis).length : Int)
                (((sampleForm "" 66 1).scrollOffset + 8) * 8)) ∧
        (moreAbove ∈ lines ↔ (sampleForm "" 66 1).scrollOffset > 0) ∧
        (moreBelow ∈ lines ↔
          (sampleForm "" 66 1).scrollOffset + 8
            < totalRows
                (((sampleForm "" 66 1).getFilteredEmojis seventyEmojis).length : Int))) ∧
      (modalRows (((sampleForm "" 66 1).renderEmojiModalBox seventyEmojis).getD [])).map
          (fun rc => rc.2.map Cell.idx)
        = [[8, 9, 10, 11, 12, 13, 14, 15], [16, 17, 18, 19, 20, 21, 22, 23],
           [24, 25, 26, 27, 28, 29, 30, 31], [32, 33, 34, 35, 36, 37, 38, 39],
           [40, 41, 42, 43, 44, 45, 46, 47], [48, 49, 50, 51, 52, 53, 54, 55],
           [56, 57, 58, 59, 60, 61, 62, 63], [64, 65, 66, 67, 68, 69]] :=
  ⟨by decide, by decide, by decide,
   renderEmojiModalBox_window seventyEmojis (sampleForm "" 66 1) (by decide) (by decide),
   by decide⟩

end Habits
